import Mathlib

/-!
Verification of the tweakcn-switcher theme-switching core.

This file gives a shallow embedding, in Lean, of the theme resolution and
application core of the repository:

* `apps/web/src/lib/tweakcn-switcher/utils.ts` — the Theme Applier
  (`applyThemeFromRegistry`), the Preset Parser
  (`parseCssToThemeRegistryItem`), URL validation (`validateUrl`,
  `normalizeTweakcnUrl`, `extractThemeNameFromUrl`, `fetchThemeFromUrl`) and
  the CSS-vs-URL detection heuristic (`isCssCode`);
* `apps/web/src/lib/tweakcn-switcher/use-tweakcn-switcher.ts` — the
  Resolution and Concurrency Controller (the `applyTheme` callback of the
  `useTweakcnSwitcher` hook);
* `src/registry.ts` — the Registry Client (`ThemeRegistry.fetchTheme`,
  `ThemeRegistry.clearCache`).

JavaScript objects used as string-to-string records are embedded as
association lists (`Rec`) whose update operation (`recSet`) replaces the
value of the first matching key in place and otherwise appends, matching
JS object insertion-order semantics.  The DOM surface touched by the
applier (root custom properties, managed style and link elements, the
`dark` class and inline font-family values) is embedded as an explicit
`Dom` state record.  Asynchronous network completions are passed in as
explicit outcome values; the single-threaded event-loop model of the
source means every synchronous segment of a JS function is one atomic
step here.
-/

/-! ## JS string primitives -/

/-- The character class `\s` of JavaScript regular expressions, which is also
exactly the set of characters removed by `String.prototype.trim`:
ASCII whitespace, NBSP, BOM, and the Unicode space separators. -/
def jsWs (c : Char) : Bool :=
  c = ' ' || c = '\t' || c = '\n' || c = '\r' || c = '\x0b' || c = '\x0c' ||
  c = '\u00a0' || c = '\u1680' ||
  ('\u2000' ≤ c && c ≤ '\u200a') ||
  c = '\u2028' || c = '\u2029' || c = '\u202f' || c = '\u205f' ||
  c = '\u3000' || c = '\ufeff'

/-- `String.prototype.trim` on a character list: drop `jsWs` characters from
both ends. -/
def jsTrimL (s : List Char) : List Char :=
  ((s.dropWhile jsWs).reverse.dropWhile jsWs).reverse

/-- `String.prototype.trim`. -/
def jsTrim (s : String) : String :=
  ⟨jsTrimL s.toList⟩

/-- Whether `pre` is a prefix of `s` (character lists). -/
def startsWithL : List Char → List Char → Bool
  | [], _ => true
  | _ :: _, [] => false
  | p :: ps, c :: cs => p = c && startsWithL ps cs

/-- `String.prototype.includes`: whether `needle` occurs as a contiguous
substring of `s`. -/
def containsSub (s needle : List Char) : Bool :=
  match s with
  | [] => startsWithL needle []
  | _ :: rest => startsWithL needle s || containsSub rest needle

/-- `String.prototype.includes` on `String`. -/
def jsIncludes (s needle : String) : Bool :=
  containsSub s.toList needle.toList

/-! ## JS records as association lists -/

/-- A JavaScript object used as a string-to-string record
(`Record<string, string>`). The list order is the object's insertion
order, as observed by `Object.entries`. -/
abbrev Rec := List (String × String)

/-- Lookup in an association list with arbitrary value type: the value of
the first entry with the given key (`obj[k]`, for objects whose keys are
unique). -/
def alistGet {β : Type} : List (String × β) → String → Option β
  | [], _ => none
  | (k', v) :: rest, k => if k' = k then some v else alistGet rest k

/-- Lookup of a key in a `Rec` (`obj[k]`). -/
def recGet (r : Rec) (k : String) : Option String :=
  alistGet r k

/-- Assignment `obj[k] = v` on a JS object: if the key is present its value
is replaced in place (insertion order is kept), otherwise the new entry is
appended at the end. -/
def recSet : Rec → String → String → Rec
  | [], k, v => [(k, v)]
  | (k', v') :: rest, k, v =>
      if k' = k then (k', v) :: rest else (k', v') :: recSet rest k v

/-- The keys of a `Rec`, in order. -/
def recKeys (r : Rec) : List String :=
  r.map Prod.fst

/-- Run a sequence of assignments `obj[k] = v` over a record, in order. -/
def applySets (assigns : Rec) (r : Rec) : Rec :=
  assigns.foldl (fun acc kv => recSet acc kv.1 kv.2) r

theorem recGet_recSet_self (r : Rec) (k v : String) :
    recGet (recSet r k v) k = some v := by
  induction r with
  | nil => simp [recGet, recSet, alistGet]
  | cons hd tl ih =>
    by_cases h : hd.1 = k
    · simp [recGet, recSet, alistGet, h]
    · simpa [recGet, recSet, alistGet, h] using ih

theorem recGet_recSet_ne (r : Rec) (k k' v : String) (h : k ≠ k') :
    recGet (recSet r k v) k' = recGet r k' := by
  induction r with
  | nil => simp [recGet, recSet, alistGet, h, Ne.symm h]
  | cons hd tl ih =>
    by_cases h1 : hd.1 = k
    · simp [recGet, recSet, alistGet, h1, h, Ne.symm h]
    · by_cases h2 : hd.1 = k'
      · simp [recGet, recSet, alistGet, h1, h2, h, Ne.symm h]
      · simpa [recGet, recSet, alistGet, h1, h2] using ih

theorem recSet_recSet_same (r : Rec) (k v v' : String) :
    recSet (recSet r k v) k v' = recSet r k v' := by
  induction r with
  | nil => simp [recSet]
  | cons hd tl ih =>
    by_cases h : hd.1 = k
    · simp [recSet, h]
    · simp [recSet, h, ih]

theorem recSet_comm_of_mem (r : Rec) (k k' v v' : String) (h : k ≠ k')
    (hk : k ∈ recKeys r) :
    recSet (recSet r k v) k' v' = recSet (recSet r k' v') k v := by
  induction r with
  | nil => simp [recKeys] at hk
  | cons hd tl ih =>
    by_cases h1 : hd.1 = k
    · have h2 : ¬hd.1 = k' := by rw [h1]; exact h
      simp [recSet, h1, h2, h, Ne.symm h]
    · by_cases h2 : hd.1 = k'
      · simp [recSet, h1, h2, h, Ne.symm h]
      · have hk' : k ∈ recKeys tl := by
          simp only [recKeys, List.map_cons, List.mem_cons] at hk
          rcases hk with hk | hk
          · exact absurd hk.symm h1
          · simpa [recKeys] using hk
        simp [recSet, h1, h2, ih hk']

theorem applySets_cons (k v : String) (s : Rec) (r : Rec) :
    applySets ((k, v) :: s) r = applySets s (recSet r k v) := rfl

theorem mem_recKeys_recSet_self (r : Rec) (k v : String) :
    k ∈ recKeys (recSet r k v) := by
  induction r with
  | nil => simp [recKeys, recSet]
  | cons hd tl ih =>
    obtain ⟨k1, v1⟩ := hd
    by_cases h : k1 = k
    · simp [recKeys, recSet, h]
    · simp only [recSet, if_neg h, recKeys, List.map_cons, List.mem_cons]
      exact Or.inr (by simpa [recKeys] using ih)

theorem mem_recKeys_recSet_of_mem (r : Rec) (k k' v : String) (h : k ∈ recKeys r) :
    k ∈ recKeys (recSet r k' v) := by
  induction r with
  | nil => simp [recKeys] at h
  | cons hd tl ih =>
    obtain ⟨k1, v1⟩ := hd
    simp only [recKeys, List.map_cons, List.mem_cons] at h
    by_cases h1 : k1 = k'
    · simp only [recSet, if_pos h1, recKeys, List.map_cons, List.mem_cons]
      rcases h with h | h
      · exact Or.inl h
      · exact Or.inr (by simpa [recKeys] using h)
    · simp only [recSet, if_neg h1, recKeys, List.map_cons, List.mem_cons]
      rcases h with h | h
      · exact Or.inl h
      · exact Or.inr (by
          have := ih (by simpa [recKeys] using h)
          simpa [recKeys] using this)

theorem recSet_id_of_recGet (r : Rec) (k v : String) (h : recGet r k = some v) :
    recSet r k v = r := by
  induction r with
  | nil => simp [recGet, alistGet] at h
  | cons hd tl ih =>
    obtain ⟨k1, v1⟩ := hd
    by_cases h1 : k1 = k
    · subst h1
      simp [recGet, alistGet] at h
      simp [recSet, h]
    · simp [recGet, alistGet, h1] at h
      simp [recSet, h1, ih h]

theorem applySets_append (a b : Rec) (r : Rec) :
    applySets (a ++ b) r = applySets b (applySets a r) := by
  simp [applySets, List.foldl_append]

theorem recGet_applySets_not_written (s : Rec) (r : Rec) (k : String)
    (h : k ∉ recKeys s) : recGet (applySets s r) k = recGet r k := by
  induction s generalizing r with
  | nil => simp [applySets]
  | cons hd tl ih =>
    obtain ⟨k2, v2⟩ := hd
    simp only [recKeys, List.map_cons, List.mem_cons, not_or] at h
    have h1 : k2 ≠ k := fun hh => h.1 hh.symm
    have h2 : k ∉ recKeys tl := by simpa [recKeys] using h.2
    rw [applySets_cons, ih _ h2, recGet_recSet_ne _ _ _ _ h1]

theorem mem_recKeys_applySets_of_mem (s : Rec) (r : Rec) (k : String)
    (h : k ∈ recKeys r) : k ∈ recKeys (applySets s r) := by
  induction s generalizing r with
  | nil => simpa [applySets]
  | cons hd tl ih =>
    obtain ⟨k2, v2⟩ := hd
    rw [applySets_cons]
    exact ih _ (mem_recKeys_recSet_of_mem _ _ _ _ h)

theorem applySets_recSet_absorb (s : Rec) (r : Rec) (k v : String)
    (hk : k ∈ recKeys r) (hs : k ∈ recKeys s) :
    applySets s (recSet r k v) = applySets s r := by
  induction s generalizing r with
  | nil => simp [recKeys] at hs
  | cons hd tl ih =>
    obtain ⟨k2, v2⟩ := hd
    by_cases h : k2 = k
    · subst h
      rw [applySets_cons, applySets_cons, recSet_recSet_same]
    · have hs' : k ∈ recKeys tl := by
        simp only [recKeys, List.map_cons, List.mem_cons] at hs
        rcases hs with hs | hs
        · exact absurd hs.symm h
        · simpa [recKeys] using hs
      rw [applySets_cons, applySets_cons,
        recSet_comm_of_mem r k k2 v v2 (fun hh => h hh.symm) hk]
      exact ih (recSet r k2 v2) (mem_recKeys_recSet_of_mem _ _ _ _ hk) hs'

theorem applySets_idem (s : Rec) (r : Rec) :
    applySets s (applySets s r) = applySets s r := by
  induction s generalizing r with
  | nil => simp [applySets]
  | cons hd tl ih =>
    obtain ⟨k, v⟩ := hd
    simp only [applySets_cons]
    by_cases hk : k ∈ recKeys tl
    · rw [applySets_recSet_absorb tl (applySets tl (recSet r k v)) k v
        (mem_recKeys_applySets_of_mem tl _ k (mem_recKeys_recSet_self r k v)) hk]
      exact ih (recSet r k v)
    · have hget : recGet (applySets tl (recSet r k v)) k = some v := by
        rw [recGet_applySets_not_written tl _ k hk]
        exact recGet_recSet_self r k v
      rw [recSet_id_of_recGet _ _ _ hget]
      exact ih (recSet r k v)

/-! ## The preset parser (`parseCssToThemeRegistryItem`, utils.ts) -/

/-- Consume characters up to and including the first star-slash comment
terminator; `none` when it does not occur.  Models the lazy tail of the
comment-stripping regex (slash-star, then a lazy `[\s\S]*?`, then
star-slash, global). -/
def dropToCommentClose : List Char → Option (List Char)
  | [] => none
  | '*' :: '/' :: rest => some rest
  | _ :: rest => dropToCommentClose rest

/-- Fueled worker for `stripComments`.  Each step consumes at least one
character of the input, so fuel equal to the input length is always
enough. -/
def stripCommentsF : Nat → List Char → List Char
  | 0, s => s
  | fuel + 1, s =>
    match s with
    | [] => []
    | '/' :: '*' :: rest =>
      match dropToCommentClose rest with
      | some after => stripCommentsF fuel after
      | none => '/' :: '*' :: rest
    | c :: rest => c :: stripCommentsF fuel rest

/-- The comment-removal `css.replace(commentRegex, "")` step of the parser:
every leftmost slash-star is deleted together with everything up to and
including the first following star-slash; an unclosed slash-star is kept
verbatim. -/
def stripComments (s : List Char) : List Char :=
  stripCommentsF s.length s

/-- Split a character list at the first occurrence of `c`: the characters
before it and the characters after it, or `none` when `c` does not
occur. -/
def splitAtChar (c : Char) : List Char → Option (List Char × List Char)
  | [] => none
  | x :: xs =>
    if x = c then some ([], xs)
    else match splitAtChar c xs with
      | some (a, b) => some (x :: a, b)
      | none => none

/-- Drop `pre` from the head of `s` when it is a prefix. -/
def dropPrefixL : List Char → List Char → Option (List Char)
  | [], s => some s
  | _ :: _, [] => none
  | p :: ps, c :: cs => if p = c then dropPrefixL ps cs else none

/-- Match the regex tail `\s*\{([^}]+)\}` at the current position: skip the
greedy whitespace run, require a brace, capture the non-empty run of
non-closing-brace characters, and require the closing brace.  (The greedy
`\s*` cannot backtrack into a brace, and `[^}]+` greedily ends exactly
before the first closing brace, so this is the regex's unique match.) -/
def braceCapture (s : List Char) : Option (List Char) :=
  match s.dropWhile jsWs with
  | '\x7b' :: rest =>
    match splitAtChar '\x7d' rest with
    | some (body, _) => if body.isEmpty then none else some body
    | none => none
  | _ => none

/-- Match `pre` followed by `\s*\{([^}]+)\}` at the head of `s`. -/
def blockAt (pre : List Char) (s : List Char) : Option (List Char) :=
  match dropPrefixL pre s with
  | some rest => braceCapture rest
  | none => none

/-- Leftmost match of the block regex (literal `pre`, then
`\s*\{([^}]+)\}`), scanning positions left to right exactly as
`String.prototype.match` does for `/:root\s*\{([^}]+)\}/` and
`/\.dark\s*\{([^}]+)\}/`. -/
def findBlock (pre : List Char) : List Char → Option (List Char)
  | [] => blockAt pre []
  | c :: rest =>
    match blockAt pre (c :: rest) with
    | some b => some b
    | none => findBlock pre rest

/-- Match `@theme\s+inline\s*\{([^}]+)\}` at the head of `s`.  The greedy
`\s+` requires at least one whitespace character and cannot backtrack into
the literal `inline`. -/
def themeInlineAt (s : List Char) : Option (List Char) :=
  match dropPrefixL "@theme".toList s with
  | none => none
  | some r1 =>
    if (r1.takeWhile jsWs).isEmpty then none
    else match dropPrefixL "inline".toList (r1.dropWhile jsWs) with
      | none => none
      | some r2 => braceCapture r2

/-- Leftmost match of the `@theme inline` block regex. -/
def findThemeInline : List Char → Option (List Char)
  | [] => themeInlineAt []
  | c :: rest =>
    match themeInlineAt (c :: rest) with
    | some b => some b
    | none => findThemeInline rest

/-- Match the declaration regex `--([^:]+):\s*([^;]+);` at the head of the
input; returns the two captures, trimmed the way every parse loop trims
them, and the characters after the match.  The second capture keeps the
regex's backtracking semantics: when everything between the colon and the
first semicolon is whitespace, the greedy `\s*` yields one character back
and the capture is that single whitespace character (which trims to the
empty value).  Both raw captures are necessarily non-empty, so the
source's truthiness guard `match[1] && match[2]` is always satisfied. -/
def declAt : List Char → Option ((String × String) × List Char)
  | '-' :: '-' :: rest =>
    (match splitAtChar ':' rest with
    | none => none
    | some (c1, afterColon) =>
      if c1.isEmpty then none
      else match splitAtChar ';' afterColon with
        | none => none
        | some (seg, afterSemi) =>
          if seg.isEmpty then none
          else
            let w := seg.takeWhile jsWs
            let c2 := if w.length = seg.length then seg.drop (seg.length - 1)
              else seg.drop w.length
            some ((⟨jsTrimL c1⟩, ⟨jsTrimL c2⟩), afterSemi))
  | _ => none

/-- Fueled worker for `scanDecls`: a successful match resumes after the
consumed text (as `matchAll` does via `lastIndex`), a failed match resumes
at the next position.  Each step consumes at least one character, so fuel
equal to the input length is always enough. -/
def scanDeclsF : Nat → List Char → List (String × String)
  | 0, _ => []
  | _ + 1, [] => []
  | fuel + 1, s =>
    match declAt s with
    | some (kv, after) => kv :: scanDeclsF fuel after
    | none => scanDeclsF fuel s.tail

/-- Global scan over the declaration regex `--([^:]+):\s*([^;]+);` (global `matchAll`), with the
per-match key/value trimming done by the parse loops. -/
def scanDecls (s : List Char) : List (String × String) :=
  scanDeclsF s.length s

/-- Theme-level key test: prefix `font-`, `radius`, `shadow`, `tracking-`
or `spacing`.  The source repeats this five-fold `startsWith` test
verbatim in the parser's `:root` and `.dark` loops, in its `@theme inline`
loop, and in the applier's mode-variable loop.  (`startsWithL` is the
prefix test on character lists.) -/
def isThemeLevelKey (k : String) : Bool :=
  startsWithL "font-".toList k.toList || startsWithL "radius".toList k.toList ||
  startsWithL "shadow".toList k.toList || startsWithL "tracking-".toList k.toList ||
  startsWithL "spacing".toList k.toList

/-- The `cssVars` field of a registry item (`types.ts`).  The source marks
each scope optional; an absent scope behaves exactly like an empty record
in every consumer (`if (cssVars.theme)` merely skips an empty loop), so
scopes are embedded as plain records. -/
structure ThemeRegistryCssVars where
  theme : Rec
  light : Rec
  dark : Rec

/-- A shadcn/ui registry item (`types.ts`): `css` maps a block key (only
`"@layer base"` is ever produced or consumed) to a selector-to-declarations
record. -/
structure ThemeRegistryItem where
  name : String
  type : String
  cssVars : ThemeRegistryCssVars
  css : Option (List (String × List (String × Rec)))

/-- The `:root` declarations the parser sees for a CSS text: declarations
of the first `:root` block of the comment-stripped text. -/
def rootDeclsOf (css : String) : List (String × String) :=
  match findBlock ":root".toList (stripComments css.toList) with
  | some body => scanDecls body
  | none => []

/-- The `.dark` declarations the parser sees for a CSS text. -/
def darkDeclsOf (css : String) : List (String × String) :=
  match findBlock ".dark".toList (stripComments css.toList) with
  | some body => scanDecls body
  | none => []

/-- The `@theme inline` declarations the parser sees for a CSS text. -/
def inlineDeclsOf (css : String) : List (String × String) :=
  match findThemeInline (stripComments css.toList) with
  | some body => scanDecls body
  | none => []

/-- Shallow embedding of `parseCssToThemeRegistryItem` (utils.ts): strip
comments, extract the first `:root`, `.dark` and `@theme inline` blocks,
and classify every custom-property declaration.  The source fills the
`theme`/`light` records in a single pass over the `:root` declarations;
since the two destinations are disjoint this is split into one fold per
destination, preserving order and overwrite behaviour. -/
def parseCssToThemeRegistryItem (css : String) (name : String := "custom-css-theme") :
    ThemeRegistryItem :=
  let rootDecls := rootDeclsOf css
  let themeAfterRoot := rootDecls.foldl
    (fun acc kv => if isThemeLevelKey kv.1 then recSet acc kv.1 kv.2 else acc) []
  let lightRec := rootDecls.foldl
    (fun acc kv => if isThemeLevelKey kv.1 then acc else recSet acc kv.1 kv.2) []
  let darkRec := (darkDeclsOf css).foldl
    (fun acc kv => if isThemeLevelKey kv.1 then acc else recSet acc kv.1 kv.2) []
  let inlineDecls := inlineDeclsOf css
  let themeRec := inlineDecls.foldl
    (fun acc kv => if isThemeLevelKey kv.1 then recSet acc kv.1 kv.2 else acc) themeAfterRoot
  let layerRoot := inlineDecls.foldl
    (fun acc kv => if isThemeLevelKey kv.1 then acc else recSet acc ("--" ++ kv.1) kv.2) []
  { name := name
    type := "theme"
    cssVars := { theme := themeRec, light := lightRec, dark := darkRec }
    css := if layerRoot.isEmpty then none
      else some [("@layer base", [(":root", layerRoot)])] }

/-! ## Percent decoding (`decodeURIComponent`) -/

/-- Value of a hexadecimal digit. -/
def hexVal (c : Char) : Option Nat :=
  if '0' ≤ c && c ≤ '9' then some (c.toNat - '0'.toNat)
  else if 'A' ≤ c && c ≤ 'F' then some (c.toNat - 'A'.toNat + 10)
  else if 'a' ≤ c && c ≤ 'f' then some (c.toNat - 'a'.toNat + 10)
  else none

/-- Read one `%XX` escape from the head of the input: the byte value and
the remaining characters. -/
def pctByte : List Char → Option (Nat × List Char)
  | '%' :: h1 :: h2 :: rest =>
    match hexVal h1, hexVal h2 with
    | some a, some b => some (16 * a + b, rest)
    | _, _ => none
  | _ => none

/-- Read one `%XX` escape whose byte lies in `[lo, hi]` (a UTF-8
continuation byte of the required range). -/
def pctByteIn (lo hi : Nat) (s : List Char) : Option (Nat × List Char) :=
  match pctByte s with
  | some (b, rest) => if lo ≤ b && b ≤ hi then some (b, rest) else none
  | none => none

/-- Decode a single percent-escape sequence (one UTF-8-encoded code
point) from the head of the input, which starts with `%`.  The
continuation-range table is the standard strict-UTF-8 table, so overlong
forms, surrogates and code points above U+10FFFF are refused. -/
def decodeOneUtf8 (s : List Char) : Option (Char × List Char) :=
  match pctByte s with
  | none => none
  | some (b, rest) =>
    if b < 0x80 then some (Char.ofNat b, rest)
    else if 0xc2 ≤ b && b ≤ 0xdf then
      match pctByteIn 0x80 0xbf rest with
      | some (c1, r1) => some (Char.ofNat ((b - 0xc0) * 0x40 + (c1 - 0x80)), r1)
      | none => none
    else if 0xe0 ≤ b && b ≤ 0xef then
      let lo1 := if b = 0xe0 then 0xa0 else 0x80
      let hi1 := if b = 0xed then 0x9f else 0xbf
      match pctByteIn lo1 hi1 rest with
      | some (c1, r1) =>
        match pctByteIn 0x80 0xbf r1 with
        | some (c2, r2) =>
          some (Char.ofNat ((b - 0xe0) * 0x1000 + (c1 - 0x80) * 0x40 + (c2 - 0x80)), r2)
        | none => none
      | none => none
    else if 0xf0 ≤ b && b ≤ 0xf4 then
      let lo1 := if b = 0xf0 then 0x90 else 0x80
      let hi1 := if b = 0xf4 then 0x8f else 0xbf
      match pctByteIn lo1 hi1 rest with
      | some (c1, r1) =>
        match pctByteIn 0x80 0xbf r1 with
        | some (c2, r2) =>
          match pctByteIn 0x80 0xbf r2 with
          | some (c3, r3) =>
            some (Char.ofNat ((b - 0xf0) * 0x40000 + (c1 - 0x80) * 0x1000 +
              (c2 - 0x80) * 0x40 + (c3 - 0x80)), r3)
          | none => none
        | none => none
      | none => none
    else none

/-- Fueled worker for `pctDecode`; fuel equal to the input length is always
enough since every step consumes at least one character. -/
def pctDecodeF : Nat → List Char → Option (List Char)
  | _, [] => some []
  | 0, _ :: _ => none
  | fuel + 1, s@('%' :: _) =>
    match decodeOneUtf8 s with
    | some (c, rest) => (pctDecodeF fuel rest).map (c :: ·)
    | none => none
  | fuel + 1, c :: rest => (pctDecodeF fuel rest).map (c :: ·)

/-- Model of `decodeURIComponent`: percent escapes must be two hex digits
and assemble into strictly valid UTF-8 (no overlong forms, no surrogate
code points, at most U+10FFFF — the continuation-range table above is the
standard strict-UTF-8 table).  `none` models the thrown `URIError`. -/
def pctDecode (s : List Char) : Option (List Char) :=
  pctDecodeF s.length s

/-- Whether `decodeURIComponent` succeeds on `s`. -/
def decodeOk (s : List Char) : Bool :=
  (pctDecode s).isSome

/-! ## A model of the WHATWG URL parser (`new URL`)

The source relies on the platform's `URL` constructor.  The model below
covers the fragment of the WHATWG basic URL parser these call sites
exercise: control-character stripping, scheme parsing, the
special-scheme authority/host requirement, port digit/range checking,
path dot-segment normalization, query extraction, and opaque paths for
non-special schemes.  Not modelled (documented simplifications, all
outside the behaviour the claims touch): IPv6/IPv4 host forms,
percent-encoded or non-ASCII (IDNA) hosts — treated as invalid, matching
the forbidden-domain-code-point check before decoding — and
percent-encoding normalization inside paths and queries. -/

/-- C0 control or space, stripped from both ends by the URL parser. -/
def isC0OrSpace (c : Char) : Bool :=
  c.toNat ≤ 0x20

/-- ASCII tab or newline, removed everywhere by the URL parser. -/
def isTabOrNl (c : Char) : Bool :=
  c = '\t' || c = '\n' || c = '\r'

/-- ASCII alphabetic character. -/
def isAsciiAlpha (c : Char) : Bool :=
  ('a' ≤ c && c ≤ 'z') || ('A' ≤ c && c ≤ 'Z')

/-- Character allowed after the first character of a scheme. -/
def isSchemeChar (c : Char) : Bool :=
  isAsciiAlpha c || ('0' ≤ c && c ≤ '9') || c = '+' || c = '-' || c = '.'

/-- ASCII lowercasing of a character list. -/
def toLowerL (s : List Char) : List Char :=
  s.map Char.toLower

/-- The special schemes of the WHATWG URL standard. -/
def specialSchemes : List String := ["ftp", "file", "http", "https", "ws", "wss"]

/-- Forbidden host characters (the forbidden domain code points; `%` is
included, so percent-encoded hosts count as invalid in this model). -/
def forbiddenHostChar (c : Char) : Bool :=
  c.toNat ≤ 0x20 || c = '#' || c = '/' || c = ':' || c = '<' || c = '>' || c = '?' ||
  c = '@' || c = '[' || c = '\\' || c = ']' || c = '^' || c = '|' || c = '%' ||
  c.toNat = 0x7f

/-- The components of a parsed URL that the source reads:
`protocol` is `scheme ++ ":"`, `hostname`, `pathname`, `search` without
its leading `?`. -/
structure UrlParts where
  scheme : String
  host : String
  pathname : String
  query : Option String
deriving DecidableEq

/-- Split a path region into raw segments at `/` (and, for special
schemes, `\`), dropping the leading empty segment produced by the leading
slash. -/
def splitSegs (sep2 : Bool) : List Char → List Char → List (List Char) → List (List Char)
  | [], cur, acc => (cur :: acc).reverse
  | c :: rest, cur, acc =>
    if c = '/' || (sep2 && c = '\\') then splitSegs sep2 rest [] (cur :: acc)
    else splitSegs sep2 rest (cur ++ [c]) acc

/-- Dot-segment elimination of the URL path state: `..` pops a segment,
`.` is dropped, and a trailing `.`/`..` leaves a trailing slash. -/
def normPathSegs (segs : List (List Char)) : List (List Char) :=
  let core := segs.foldl
    (fun acc s => if s = ['.', '.'] then acc.dropLast else if s = ['.'] then acc else acc ++ [s])
    []
  match segs.getLast? with
  | some s => if s = ['.', '.'] || s = ['.'] then core ++ [[]] else core
  | none => core

/-- Assemble a pathname string from a path region (characters after the
authority, before any query or fragment). -/
def buildPathname (special : Bool) (region : List Char) : String :=
  let raw := splitSegs special (region.dropWhile (fun c => c = '/' || (special && c = '\\'))) [] []
  let raw := if region.isEmpty then [] else raw
  let segs := normPathSegs raw
  "/" ++ String.intercalate "/" (segs.map (fun l => (⟨l⟩ : String)))

/-- Split off the fragment (`#...`) and the query (`?...`) of the
remaining input: returns (before-query, query?). -/
def splitQueryFragment (s : List Char) : List Char × Option (List Char) :=
  let noFrag := (splitAtChar '#' s).map Prod.fst |>.getD s
  match splitAtChar '?' noFrag with
  | some (p, q) => (p, some q)
  | none => (noFrag, none)

/-- Whether every character of a port string is an ASCII digit. -/
def allDigits (s : List Char) : Bool :=
  s.all (fun c => '0' ≤ c && c ≤ '9')

/-- Numeric value of a digit string (most significant first). -/
def digitsToNat (s : List Char) : Nat :=
  s.foldl (fun acc c => acc * 10 + (c.toNat - '0'.toNat)) 0

/-- Parse the authority-plus-rest of a URL with an authority.  `special`
decides whether `\` separates like `/` and whether an empty host is
refused (`allowEmptyHost` is true only for `file` and non-special
schemes). -/
def parseAuthorityRest (special allowEmptyHost : Bool) (scheme : String) (rest : List Char) :
    Option UrlParts :=
  let auth := rest.takeWhile (fun c => !(c = '/' || c = '?' || c = '#' || (special && c = '\\')))
  let tail := rest.drop auth.length
  let hostport := ((splitAtChar '@' auth.reverse).map Prod.fst |>.getD auth.reverse).reverse
  match splitAtChar ':' hostport with
  | some (h, p) =>
    if !allDigits p then none
    else if p.length > 0 && digitsToNat p > 65535 then none
    else if h.isEmpty && !allowEmptyHost then none
    else if h.any forbiddenHostChar then none
    else
      let (region, q) := splitQueryFragment tail
      some { scheme := scheme, host := ⟨toLowerL h⟩,
             pathname := buildPathname special region, query := q.map (fun l => ⟨l⟩) }
  | none =>
    if hostport.isEmpty && !allowEmptyHost then none
    else if hostport.any forbiddenHostChar then none
    else
      let (region, q) := splitQueryFragment tail
      some { scheme := scheme, host := ⟨toLowerL hostport⟩,
             pathname := buildPathname special region, query := q.map (fun l => ⟨l⟩) }

/-- Model of `new URL(input)` without a base: `none` models the thrown
`TypeError`. -/
def parseUrl (input : String) : Option UrlParts :=
  let s := input.toList
  let s := (s.dropWhile isC0OrSpace).reverse.dropWhile isC0OrSpace |>.reverse
  let s := s.filter (fun c => !isTabOrNl c)
  match s with
  | [] => none
  | c0 :: _ =>
    if !isAsciiAlpha c0 then none
    else
      let schemeChars := s.takeWhile isSchemeChar
      match s.drop schemeChars.length with
      | ':' :: rest =>
        let scheme : String := ⟨toLowerL schemeChars⟩
        if scheme ∈ specialSchemes then
          if scheme = "file" then
            let rest1 := rest.dropWhile (fun c => c = '/' || c = '\\')
            parseAuthorityRest true true scheme rest1
          else
            let rest1 := rest.dropWhile (fun c => c = '/' || c = '\\')
            parseAuthorityRest true false scheme rest1
        else
          match rest with
          | '/' :: '/' :: rest2 => parseAuthorityRest false true scheme rest2
          | _ =>
            let (region, q) := splitQueryFragment rest
            some { scheme := scheme, host := "",
                   pathname := ⟨region⟩, query := q.map (fun l => ⟨l⟩) }
      | _ => none

/-- The `protocol` accessor of a parsed URL. -/
def UrlParts.protocol (u : UrlParts) : String :=
  u.scheme ++ ":"

/-! ## `validateUrl`, `normalizeTweakcnUrl`, `extractThemeNameFromUrl`,
`isCssCode` and `fetchThemeFromUrl` (utils.ts) -/

/-- Split a query string into raw chunks at `&`. -/
def splitAmp : List Char → List Char → List (List Char) → List (List Char)
  | [], cur, acc => (cur :: acc).reverse
  | c :: rest, cur, acc =>
    if c = '&' then splitAmp rest [] (cur :: acc)
    else splitAmp rest (cur ++ [c]) acc

/-- Lenient form-urlencoded decoding used by `URLSearchParams`: `+`
becomes a space, a valid percent-escape sequence decodes as one code
point, a well-formed escape carrying invalid UTF-8 becomes U+FFFD, and a
malformed escape is kept verbatim.  (The per-invalid-byte replacement
count of the real decoder is not reproduced; the one call site compares
plain ASCII names.) -/
def formDecodeF : Nat → List Char → List Char
  | _, [] => []
  | 0, s => s
  | fuel + 1, '+' :: rest => ' ' :: formDecodeF fuel rest
  | fuel + 1, s@('%' :: cs) =>
    match decodeOneUtf8 s with
    | some (c, rest) => c :: formDecodeF fuel rest
    | none =>
      match pctByte s with
      | some (_, rest) => '\ufffd' :: formDecodeF fuel rest
      | none => '%' :: formDecodeF fuel cs
  | fuel + 1, c :: rest => c :: formDecodeF fuel rest

/-- Lenient form-urlencoded decoding (fuel instantiated). -/
def formDecode (s : List Char) : List Char :=
  formDecodeF s.length s

/-- Name and value of one raw query pair: split at the first `=`; a pair
without `=` has the empty value. -/
def pairNameValue (l : List Char) : List Char × List Char :=
  match splitAtChar '=' l with
  | some (n, v) => (n, v)
  | none => (l, [])

/-- The decoded name-value pairs of a query string, as `URLSearchParams`
exposes them (empty chunks dropped). -/
def searchPairs (q : List Char) : List (String × String) :=
  ((splitAmp q [] []).filter (fun l => !l.isEmpty)).map (fun l =>
    ((⟨formDecode (pairNameValue l).1⟩ : String), (⟨formDecode (pairNameValue l).2⟩ : String)))

/-- `url.searchParams.get(name)`; `searchParams.has(name)` is `isSome` of
this. -/
def searchGet (query : Option String) (name : String) : Option String :=
  match query with
  | none => none
  | some q => alistGet (searchPairs q.toList) name

/-- Result record of `validateUrl`. -/
structure UrlValidation where
  valid : Bool
  error : Option String
deriving DecidableEq

/-- Shallow embedding of `validateUrl` (utils.ts): empty/whitespace-only
input, a failing `decodeURIComponent`, a throwing `URL` constructor, and
a non-http(s) protocol each produce their own error message.  (The
source's `URIError` and non-`TypeError` catch arms are unreachable: only
the `URL` constructor can throw there, and it throws `TypeError`.) -/
def validateUrl (url : String) : UrlValidation :=
  if (jsTrim url).isEmpty then { valid := false, error := some "URL cannot be empty" }
  else
    let trimmedUrl := jsTrim url
    if !decodeOk trimmedUrl.toList then
      { valid := false,
        error := some "Invalid URL: contains malformed characters. Please check the URL and try again." }
    else
      match parseUrl trimmedUrl with
      | some u =>
        if u.protocol = "http:" || u.protocol = "https:" then { valid := true, error := none }
        else { valid := false, error := some "URL must use http or https protocol" }
      | none =>
        { valid := false,
          error := some "Invalid URL format. Please enter a valid URL (e.g., https://example.com/theme.json)" }

/-- Shallow embedding of `normalizeTweakcnUrl` (utils.ts): rewrite
`https://tweakcn.com/editor/theme?theme=<name>` to the canonical theme
JSON URL; anything else — including unparsable URLs — passes through
unchanged. -/
def normalizeTweakcnUrl (url : String) : String :=
  match parseUrl url with
  | none => url
  | some u =>
    if u.host = "tweakcn.com" && u.pathname = "/editor/theme" &&
        (searchGet u.query "theme").isSome then
      match searchGet u.query "theme" with
      | some tn => if tn ≠ "" then "https://tweakcn.com/r/themes/" ++ tn ++ ".json" else url
      | none => url
    else url

/-- Shallow embedding of `extractThemeNameFromUrl` (utils.ts): the match
of the regex `\/([^/]+)\.json$` is the non-empty, slash-free segment
between the last slash and a terminal `.json`; the captured name is
percent-decoded when decoding succeeds and kept raw otherwise; everything
else falls back to `"custom-theme"`. -/
def extractThemeNameFromUrl (url : String) : String :=
  let s := url.toList
  if s.length ≥ 5 && decide (s.drop (s.length - 5) = ".json".toList) then
    let t := s.take (s.length - 5)
    let cap := (t.reverse.takeWhile (fun c => c ≠ '/')).reverse
    if cap.isEmpty || cap.length = t.length then "custom-theme"
    else
      match pctDecode cap with
      | some d => (⟨d⟩ : String)
      | none => (⟨cap⟩ : String)
  else "custom-theme"

/-- Shallow embedding of `isCssCode` (utils.ts): a string accepted by
`validateUrl` is never CSS; otherwise the CSS indicators decide. -/
def isCssCode (input : String) : Bool :=
  let trimmed := jsTrim input
  if (validateUrl trimmed).valid then false
  else
    jsIncludes trimmed ":root" || jsIncludes trimmed ".dark" ||
    jsIncludes trimmed "@theme" || jsIncludes trimmed "--" ||
    (jsIncludes trimmed "\x7b" && jsIncludes trimmed "\x7d" && jsIncludes trimmed ":")

/-- Completion of the network part of `fetchThemeFromUrl` for the
validated, normalized URL: `ok` when `response.ok` holds and
`response.json()` parses; `httpError` carries status and statusText;
`transport` is `fetch` rejecting with the `TypeError` "Failed to fetch";
`jsonError` is `response.json()` rejecting with some other `Error`
(carrying its message, re-thrown as-is by the catch handler). -/
inductive NetOutcome where
  | ok (item : ThemeRegistryItem)
  | httpError (status : Nat) (statusText : String)
  | transport
  | jsonError (msg : String)

/-- Shallow embedding of `fetchThemeFromUrl` (utils.ts): normalize, then
validate (throwing the validation message without touching the network),
then translate the network completion into the messages built by the
source.  `Except.error` models a rejected promise. -/
def fetchThemeFromUrlM (url : String) (net : NetOutcome) : Except String ThemeRegistryItem :=
  let normalizedUrl := normalizeTweakcnUrl url
  let validation := validateUrl normalizedUrl
  if !validation.valid then .error (validation.error.getD "Invalid URL")
  else match net with
    | .ok item => .ok item
    | .httpError status statusText =>
      .error ("Failed to fetch theme: " ++ statusText ++ " (" ++ toString status ++ ")")
    | .transport =>
      .error "Network error: Unable to fetch theme. Please check your connection and the URL."
    | .jsonError msg => .error msg

/-! ## The Theme Applier (`applyThemeFromRegistry`, utils.ts) -/

/-- Color mode: the `"light" | "dark"` argument of the applier. -/
inductive Mode where
  | light
  | dark
deriving DecidableEq

/-- The DOM surface touched by the applier: root custom properties (keys
stored without their `--` prefix, which `applyCSSVariable` prepends
uniformly), the contents of `style[data-tweakcn-switcher-font-vars]`
elements in document order, the `<link>` hrefs in the head together with
their `data-tweakcn-switcher-font` flag, the contents of
`style[data-tweakcn-switcher]` elements, the inline `font-family` values
on `<html>` and `<body>`, and the root `dark` class. -/
@[ext]
structure Dom where
  props : Rec
  fontVarStyles : List String
  fontLinks : List (String × Bool)
  layerStyles : List String
  rootFontInline : Option String
  bodyFontInline : Option String
  darkClass : Bool

/-- Strip one leading and one trailing quote character, as the global
replace of `^["']|["']$` does. -/
def stripQuotes (s : List Char) : List Char :=
  let s1 := match s with
    | c :: rest => if c = '"' || c = '\'' then rest else s
    | [] => s
  match s1.reverse with
  | c :: rest => if c = '"' || c = '\'' then rest.reverse else s1
  | [] => s1

/-- Whether a font name is one of the generic families the source filters
out, matched by `^(sans-serif|serif|monospace| cursive|fantasy)$` with the
`i` flag.  The leading space of the ` cursive` alternative is kept
faithfully: a trimmed `cursive` does not match and is not filtered. -/
def isGenericFamily (f : String) : Bool :=
  let lf : String := ⟨toLowerL f.toList⟩
  lf = "sans-serif" || lf = "serif" || lf = "monospace" || lf = " cursive" || lf = "fantasy"

/-- Shallow embedding of `extractFontNames` (utils.ts): split at commas,
trim, strip one layer of quotes, drop empties and generic families. -/
def extractFontNames (fontFamily : String) : List String :=
  (((fontFamily.splitOn ",").map
    (fun f => ((⟨stripQuotes (jsTrimL f.toList)⟩ : String)))).filter
    (fun f => f ≠ "" && !isGenericFamily f))

/-- Replace every whitespace run by a single `+` (the global `\s+`
replace).  The flag records whether the previous character was
whitespace. -/
def wsRunsToPlusGo : Bool → List Char → List Char
  | _, [] => []
  | prevWs, c :: rest =>
    if jsWs c then
      if prevWs then wsRunsToPlusGo true rest else '+' :: wsRunsToPlusGo true rest
    else c :: wsRunsToPlusGo false rest

/-- Replace every whitespace run by a single `+`. -/
def wsRunsToPlus (s : List Char) : List Char :=
  wsRunsToPlusGo false s

/-- Shallow embedding of `getGoogleFontsUrl` (utils.ts): whitespace runs
become `+`, quote characters are removed, the result is trimmed, and an
empty normalized name yields no URL. -/
def getGoogleFontsUrl (fontName : String) : Option String :=
  let normalizedName :=
    jsTrimL ((wsRunsToPlus fontName.toList).filter (fun c => !(c = '\'' || c = '"')))
  if normalizedName.isEmpty then none
  else some ("https://fonts.googleapis.com/css2?family=" ++ (⟨normalizedName⟩ : String) ++
    ":wght@400;500;600;700&display=swap")

/-- Whether some `<link>` with the given href exists — the existence probe
of `loadGoogleFont`, which selects any link element by href. -/
def hasLinkHref (links : List (String × Bool)) (url : String) : Bool :=
  links.any (fun l => l.1 = url)

/-- One `loadGoogleFont` call: append a link flagged
`data-tweakcn-switcher-font` unless a link with that href already exists.
Load failures resolve silently and leave no other trace. -/
def loadFontStep (links : List (String × Bool)) (url : String) : List (String × Bool) :=
  if hasLinkHref links url then links else links ++ [(url, true)]

/-- Fold of `loadGoogleFont` calls over a list of font names.  Promise
executors run synchronously, so the `Promise.all` over the font names is
a left-to-right fold. -/
def loadFontsList (names : List String) (links : List (String × Bool)) :
    List (String × Bool) :=
  names.foldl (fun acc n =>
    match getGoogleFontsUrl n with
    | some url => loadFontStep acc url
    | none => acc) links

/-- Effect of `tryLoadFontsFromGoogleFonts` on the link list: extract the
font names, then load each. -/
def loadFonts (fontFamily : String) (links : List (String × Bool)) : List (String × Bool) :=
  loadFontsList (extractFontNames fontFamily) links

/-- The `fontSansValue` tracked by the applier's theme-variable loop: the
value of the last `font-sans` entry whose value is truthy (non-empty). -/
def computeFontSans (theme : Rec) : Option String :=
  theme.foldl (fun acc kv => if kv.1 = "font-sans" && kv.2 ≠ "" then some kv.2 else acc) none

/-- Escape every double quote as backslash-quote, as the source does
before splicing the font value into the override stylesheet. -/
def escapeQuotes (s : String) : String :=
  ⟨s.toList.foldr (fun c acc => if c = '"' then '\\' :: '"' :: acc else c :: acc) []⟩

/-- Content of the `data-tweakcn-switcher-font-vars` override stylesheet,
mirroring the source's template literal character for character. -/
def fontStyleContent (fontSansValue : String) : String :=
  let e := escapeQuotes fontSansValue
  "\n      :root \x7b\n        --font-sans: " ++ e ++
    " !important;\n      \x7d\n      html, body \x7b\n        font-family: " ++ e ++
    " !important;\n      \x7d\n    "

/-- Content of the generated `data-tweakcn-switcher` stylesheet for an
`@layer base` rule set: one line per selector, properties joined by single
spaces. -/
def layerStyleContent (base : List (String × Rec)) : String :=
  let styleContent := String.intercalate "\n" (base.map (fun sp =>
    sp.1 ++ " \x7b " ++
      String.intercalate " " (sp.2.map (fun pv => pv.1 ++ ": " ++ pv.2 ++ ";")) ++ " \x7d"))
  "@layer base \x7b\n" ++ styleContent ++ "\n\x7d"

/-- The mode-scope record selected by the applier's `cssVars[mode]`. -/
def modeVarsOf (cv : ThemeRegistryCssVars) : Mode → Rec
  | .light => cv.light
  | .dark => cv.dark

/-- The applier's mode-variable loop: write every entry whose key is not
theme-level as a root custom property; theme-level keys are skipped so
that `cssVars.theme` stays the sole source for them. -/
def applyModeVars (vars : Rec) (props : Rec) : Rec :=
  vars.foldl (fun acc kv => if !isThemeLevelKey kv.1 then recSet acc kv.1 kv.2 else acc) props

/-- The `@layer base` rule set of an item, as read by
`css?.["@layer base"]`. -/
def layerBaseOf (item : ThemeRegistryItem) : Option (List (String × Rec)) :=
  item.css.bind (fun c => alistGet c "@layer base")

/-- Shallow embedding of `applyThemeFromRegistry` (utils.ts) as a state
transformer on the DOM surface.  Steps in source order: (1) remove the
first existing font-override stylesheet, if any; (2) write all
theme-scope variables as
root custom properties, tracking the last truthy `font-sans` value; (3)
with a `font-sans` value, load fonts best-effort and append one override
stylesheet — without one, remove the managed font links and the inline
font-family of html and body; (4) write mode-scope variables, skipping
theme-level keys; (5) with an `@layer base` rule set, remove all managed
generated stylesheets and insert a single fresh one; (6) set the root
`dark` class from the mode.  Step (1) uses `document.querySelector`, so
it removes only the first matching style element in document order
(contrast step (5), which removes all via `querySelectorAll`); the new
override stylesheet is appended at the end of the head.  The theme
loop's two effects (property writes and `font-sans` tracking) are split
into `applySets` and `computeFontSans` over the same entry list. -/
def applyThemeFromRegistry (item : ThemeRegistryItem) (mode : Mode) (d : Dom) : Dom :=
  let d1 : Dom := { d with fontVarStyles := d.fontVarStyles.tail }
  let p1 := applySets item.cssVars.theme d1.props
  let fontSansValue := computeFontSans item.cssVars.theme
  let d3 : Dom :=
    match fontSansValue with
    | some fv =>
      { d1 with
        props := p1
        fontLinks := loadFonts fv d1.fontLinks
        fontVarStyles := d1.fontVarStyles ++ [fontStyleContent fv] }
    | none =>
      { d1 with
        props := p1
        fontLinks := d1.fontLinks.filter (fun l => !l.2)
        rootFontInline := none
        bodyFontInline := none }
  let p2 := applyModeVars (modeVarsOf item.cssVars mode) d3.props
  let d5 : Dom :=
    match layerBaseOf item with
    | some base => { d3 with props := p2, layerStyles := [layerStyleContent base] }
    | none => { d3 with props := p2 }
  { d5 with darkClass := decide (mode = Mode.dark) }

/-- N-fold application of the same (item, mode) pair to a DOM state. -/
def applyN (item : ThemeRegistryItem) (mode : Mode) : Nat → Dom → Dom
  | 0, d => d
  | n + 1, d => applyThemeFromRegistry item mode (applyN item mode n d)

/-! ## The Resolution and Concurrency Controller (`useTweakcnSwitcher`) -/

/-- A UI-facing theme option (`types.ts`): the hook populates exactly one
of `url` or `css`. -/
structure ThemeOption where
  id : String
  name : String
  url : Option String
  css : Option String
deriving DecidableEq

/-- JS truthiness of an optional string field (`t.url && ...`): present
and non-empty. -/
def optTruthy : Option String → Bool
  | some s => s ≠ ""
  | none => false

/-- The record persisted under the storage key: `{url|css, mode, name}`.
The embedding keeps the JSON object structured. -/
structure PersistedTheme where
  url : Option String
  css : Option String
  mode : Mode
  name : String
deriving DecidableEq

/-- The controller state of `useTweakcnSwitcher` that `applyTheme` reads
and writes: the React state cells (`themes`, `currentTheme`, `isLoading`,
`error`, `mode`, `currentRegistryItem`) and the synchronous
`isApplyingRef` guard.  State updates are embedded as immediate field
updates; the single-threaded event loop makes every synchronous segment
between awaits atomic. -/
structure CtrlState where
  themes : List ThemeOption
  currentTheme : Option ThemeOption
  isLoading : Bool
  error : Option String
  mode : Mode
  currentRegistryItem : Option ThemeRegistryItem
  isApplying : Bool

/-- The duplicate test of the `setThemes` updater: an existing option
matches when its truthy `url` or truthy `css` equals the input string. -/
def themeMatches (urlOrCss : String) (t : ThemeOption) : Bool :=
  (optTruthy t.url && t.url = some urlOrCss) || (optTruthy t.css && t.css = some urlOrCss)

/-- The `setThemes` updater of `applyTheme` together with its nested
`setCurrentTheme` calls: reuse a matching existing option, otherwise
append the new one and select it. -/
def updateThemes (st : CtrlState) (urlOrCss : String) (opt : ThemeOption) : CtrlState :=
  match st.themes.find? (themeMatches urlOrCss) with
  | some existing => { st with currentTheme := some existing }
  | none =>
    { st with
      themes := st.themes ++ [opt]
      currentTheme := some opt }

/-- Result of one `applyTheme` invocation: final controller state, DOM
state, persisted record, and the number of network fetches performed. -/
structure ApplyResult where
  state : CtrlState
  dom : Dom
  storage : Option PersistedTheme
  fetches : Nat

/-- Shallow embedding of the `applyTheme` callback of `useTweakcnSwitcher`
(the hook file): return immediately while `isApplyingRef` is set;
otherwise set the guard and the loading flag, clear the error, resolve
the input as inline CSS (parsed synchronously) or as a URL (validated
and fetched, `net` being the completion of that one fetch), apply the
item under `overrideMode ?? modeRef.current`, record the theme option,
persist when enabled, surface any rejection as the `error` state, and
always release the loading flag and the guard in the `finally` block.
`now` is `Date.now()`, used for CSS theme ids.  Nothing after a
successful fetch can throw in the model, matching the source, where the
applier swallows font failures and the DOM primitives are assumed
available. -/
def applyThemeRun (st : CtrlState) (d : Dom) (sto : Option PersistedTheme)
    (persist : Bool) (urlOrCss : String) (overrideMode : Option Mode)
    (net : NetOutcome) (now : Nat) : ApplyResult :=
  if st.isApplying then { state := st, dom := d, storage := sto, fetches := 0 }
  else
    let s0 : CtrlState :=
      { st with
        isApplying := true
        isLoading := true
        error := none }
    let currentMode := overrideMode.getD st.mode
    if isCssCode urlOrCss then
      let registryItem := parseCssToThemeRegistryItem urlOrCss "custom-css-theme"
      let themeName := registryItem.name
      let themeOption : ThemeOption :=
        { id := "css-theme-" ++ toString now, name := themeName
          url := none, css := some urlOrCss }
      let s1 := { s0 with currentRegistryItem := some registryItem }
      let d' := applyThemeFromRegistry registryItem currentMode d
      let s2 := updateThemes s1 urlOrCss themeOption
      let sto' := if persist then
          some { url := none, css := some urlOrCss, mode := currentMode, name := themeName }
        else sto
      { state := { s2 with isLoading := false, isApplying := false }
        dom := d', storage := sto', fetches := 0 }
    else
      match fetchThemeFromUrlM urlOrCss net with
      | .error msg =>
        { state := { s0 with error := some msg, isLoading := false, isApplying := false }
          dom := d, storage := sto
          fetches := if (validateUrl (normalizeTweakcnUrl urlOrCss)).valid then 1 else 0 }
      | .ok registryItem =>
        let themeName := if registryItem.name ≠ "" then registryItem.name
          else extractThemeNameFromUrl urlOrCss
        let themeOption : ThemeOption :=
          { id := "theme-" ++ themeName, name := themeName
            url := some urlOrCss, css := none }
        let s1 := { s0 with currentRegistryItem := some registryItem }
        let d' := applyThemeFromRegistry registryItem currentMode d
        let s2 := updateThemes s1 urlOrCss themeOption
        let sto' := if persist then
            some { url := some urlOrCss, css := none, mode := currentMode, name := themeName }
          else sto
        { state := { s2 with isLoading := false, isApplying := false }
          dom := d', storage := sto', fetches := 1 }

/-- The controller states at the suspension points of a guarded
`applyTheme` run: while awaiting the fetch (URL branch) and while
awaiting `applyThemeFromRegistry` (reached in the CSS branch and after a
successful fetch).  Any other invocation interleaves at one of these
points; the synchronous prologue and epilogue are atomic. -/
def applyThemeMidStates (st : CtrlState) (urlOrCss : String) (net : NetOutcome) :
    List CtrlState :=
  let s0 : CtrlState :=
    { st with
      isApplying := true
      isLoading := true
      error := none }
  if isCssCode urlOrCss then
    [{ s0 with
      currentRegistryItem := some (parseCssToThemeRegistryItem urlOrCss "custom-css-theme") }]
  else
    match fetchThemeFromUrlM urlOrCss net with
    | .error _ => [s0]
    | .ok registryItem => [s0, { s0 with currentRegistryItem := some registryItem }]

/-! ## The Registry Client (`ThemeRegistry`, src/registry.ts) -/

/-- The wire theme type of the standalone registry client
(`TweakcnTheme` in its `types.ts`) has exactly the shape of
`ThemeRegistryItem`. -/
abbrev TweakcnTheme := ThemeRegistryItem

/-- Generic association-list update with the in-place-or-append semantics
of `Map.prototype.set`. -/
def alistSet {β : Type} : List (String × β) → String → β → List (String × β)
  | [], k, v => [(k, v)]
  | (k', v') :: rest, k, v =>
    if k' = k then (k', v) :: rest else (k', v') :: alistSet rest k v

/-- State of one `ThemeRegistry` instance: the private per-name cache
(`Map<string, TweakcnTheme>`). -/
structure RegistryState where
  cache : List (String × TweakcnTheme)

/-- A fresh `ThemeRegistry`: the constructor starts with an empty cache. -/
def RegistryState.init : RegistryState :=
  { cache := [] }

/-- Result of one `fetchTheme` call: the returned value, the new instance
state, and the number of network requests performed. -/
structure FetchResult where
  value : Option TweakcnTheme
  state : RegistryState
  requests : Nat

/-- Network completion for `fetch(baseUrl/name.json)` followed by
`response.json()`: `some theme` when the response is ok and parses;
`none` for any failure (non-ok status, transport failure, parse
failure), all of which `fetchTheme` catches, logs and converts to
`null`. -/
abbrev RegistryNet := String → Option TweakcnTheme

/-- Shallow embedding of `ThemeRegistry.fetchTheme`: a cache hit returns
the cached theme without touching the network; otherwise one request is
made and only a successful result is stored in the cache. -/
def fetchTheme (rs : RegistryState) (net : RegistryNet) (themeName : String) : FetchResult :=
  match alistGet rs.cache themeName with
  | some t => { value := some t, state := rs, requests := 0 }
  | none =>
    match net themeName with
    | some theme =>
      { value := some theme
        state := { cache := alistSet rs.cache themeName theme }, requests := 1 }
    | none => { value := none, state := rs, requests := 1 }

/-- Shallow embedding of `ThemeRegistry.clearCache`. -/
def clearCache (_ : RegistryState) : RegistryState :=
  { cache := [] }

/-! ## Supporting lemmas: the applier's variable writes -/

theorem recGet_applySets_of_nodup (s : Rec) (p : Rec) (k v : String)
    (hnodup : (recKeys s).Nodup) (hk : recGet s k = some v) :
    recGet (applySets s p) k = some v := by
  induction s generalizing p with
  | nil => simp [recGet, alistGet] at hk
  | cons hd tl ih =>
    obtain ⟨k1, v1⟩ := hd
    simp only [recKeys, List.map_cons, List.nodup_cons] at hnodup
    by_cases h1 : k1 = k
    · subst h1
      simp only [recGet, alistGet, if_pos trivial, if_true, Option.some.injEq] at hk
      rw [applySets_cons]
      have hnot : k1 ∉ recKeys tl := by simpa [recKeys] using hnodup.1
      rw [recGet_applySets_not_written tl _ _ hnot, recGet_recSet_self, hk]
    · simp only [recGet, alistGet, if_neg h1] at hk
      rw [applySets_cons]
      exact ih (recSet p k1 v1) hnodup.2 hk

theorem applyModeVars_cons (k1 v1 : String) (tl : Rec) (props : Rec) :
    applyModeVars ((k1, v1) :: tl) props =
      applyModeVars tl (if !isThemeLevelKey k1 then recSet props k1 v1 else props) := by
  simp [applyModeVars]

theorem recGet_applyModeVars_theme (vars : Rec) (props : Rec) (k : String)
    (h : isThemeLevelKey k = true) :
    recGet (applyModeVars vars props) k = recGet props k := by
  induction vars generalizing props with
  | nil => rfl
  | cons hd tl ih =>
    obtain ⟨k1, v1⟩ := hd
    rw [applyModeVars_cons]
    by_cases hh : isThemeLevelKey k1
    · simp only [hh, Bool.not_true, Bool.false_eq_true, if_false]
      exact ih props
    · have hne : k1 ≠ k := fun he => hh (he ▸ h)
      simp only [Bool.not_eq_true', hh, Bool.not_false, if_true]
      rw [ih (recSet props k1 v1), recGet_recSet_ne _ _ _ _ hne]

theorem applyModeVars_eq_filter (vars props : Rec) :
    applyModeVars vars props =
      applySets (vars.filter (fun kv => !isThemeLevelKey kv.1)) props := by
  induction vars generalizing props with
  | nil => rfl
  | cons hd tl ih =>
    obtain ⟨k1, v1⟩ := hd
    rw [applyModeVars_cons]
    by_cases hh : isThemeLevelKey k1
    · simp only [hh, Bool.not_true, if_false, List.filter_cons, Bool.false_eq_true]
      exact ih props
    · simp only [eq_false_of_ne_true hh, Bool.not_false, if_true, List.filter_cons,
        applySets_cons]
      exact ih (recSet props k1 v1)

theorem applyThemeFromRegistry_props (item : ThemeRegistryItem) (mode : Mode) (d : Dom) :
    (applyThemeFromRegistry item mode d).props =
      applyModeVars (modeVarsOf item.cssVars mode)
        (applySets item.cssVars.theme d.props) := by
  unfold applyThemeFromRegistry
  rcases computeFontSans item.cssVars.theme with _ | fv <;>
    rcases layerBaseOf item with _ | base <;> rfl

/-- C1: for a registry item whose theme scope defines a theme-level key
that its mode scope also defines, `applyThemeFromRegistry` leaves the
root custom property at the theme-scope value (stated for either mode):
the theme-scope write survives because the applier's mode-variable step
never writes keys carrying a theme-level prefix — that step equals the
same step with every theme-level entry filtered away. -/
theorem applyTheme_themeScope_precedence
    (item : ThemeRegistryItem) (mode : Mode) (d : Dom) (k v : String)
    (hnodup : (recKeys item.cssVars.theme).Nodup)
    (hk : recGet item.cssVars.theme k = some v)
    (htheme : isThemeLevelKey k = true) :
    recGet (applyThemeFromRegistry item mode d).props k = some v ∧
    ∀ vars props : Rec,
      applyModeVars vars props =
        applySets (vars.filter (fun kv => !isThemeLevelKey kv.1)) props := by
  refine ⟨?_, fun vars props => applyModeVars_eq_filter vars props⟩
  rw [applyThemeFromRegistry_props, recGet_applyModeVars_theme _ _ _ htheme]
  exact recGet_applySets_of_nodup _ _ _ _ hnodup hk

/-- A DOM state with nothing applied, used by the concrete witnesses. -/
def domEmpty : Dom :=
  { props := [], fontVarStyles := [], fontLinks := [], layerStyles := []
    rootFontInline := none, bodyFontInline := none, darkClass := false }

/-- A registry item whose theme scope and dark scope both define
`radius`, with conflicting values. -/
def itemRadius : ThemeRegistryItem :=
  { name := "t", type := "theme"
    cssVars := { theme := [("radius", "4px")], light := [], dark := [("radius", "9px")] }
    css := none }

/-- C1 witness: the precedence theorem at a concrete item, mode and DOM:
after applying with mode `dark`, the root `radius` property holds the
theme-scope value, not the dark-scope one. -/
theorem applyTheme_themeScope_precedence_witness :
    recGet (applyThemeFromRegistry itemRadius Mode.dark domEmpty).props "radius" = some "4px" :=
  (applyTheme_themeScope_precedence itemRadius Mode.dark domEmpty "radius" "4px"
    (by decide) (by decide) (by decide)).1

/-! ## Supporting lemmas: the parser's classification folds -/

theorem exists_recGet_recSet (r : Rec) (k k2 v2 : String)
    (h : ∃ w, recGet r k = some w) : ∃ w, recGet (recSet r k2 v2) k = some w := by
  by_cases hk : k2 = k
  · subst hk
    exact ⟨v2, recGet_recSet_self r k2 v2⟩
  · obtain ⟨w, hw⟩ := h
    exact ⟨w, by rw [recGet_recSet_ne _ _ _ _ hk, hw]⟩

theorem exists_recGet_foldl_pres (f : Rec → String × String → Rec)
    (hf : ∀ r kv, f r kv = r ∨ f r kv = recSet r kv.1 kv.2)
    (decls : List (String × String)) (init : Rec) (k : String)
    (h : ∃ w, recGet init k = some w) :
    ∃ w, recGet (decls.foldl f init) k = some w := by
  induction decls generalizing init with
  | nil => simpa using h
  | cons hd tl ih =>
    rw [List.foldl_cons]
    rcases hf init hd with he | he
    · rw [he]
      exact ih _ h
    · rw [he]
      exact ih _ (exists_recGet_recSet _ _ _ _ h)

theorem exists_recGet_foldl_set (f : Rec → String × String → Rec)
    (hf : ∀ r kv, f r kv = r ∨ f r kv = recSet r kv.1 kv.2)
    (decls : List (String × String)) (init : Rec) (k v : String)
    (hset : ∀ r, f r (k, v) = recSet r k v) :
    (k, v) ∈ decls → ∃ w, recGet (decls.foldl f init) k = some w := by
  induction decls generalizing init with
  | nil => intro hmem; simp at hmem
  | cons hd tl ih =>
    intro hmem
    rw [List.foldl_cons]
    rcases List.mem_cons.mp hmem with he | hm
    · rw [← he, hset init]
      exact exists_recGet_foldl_pres f hf tl _ k ⟨v, recGet_recSet_self _ _ _⟩
    · rcases hf init hd with hh | hh <;> rw [hh] <;> exact ih _ hm

theorem recGet_foldl_none (f : Rec → String × String → Rec)
    (hf : ∀ r kv, f r kv = r ∨ f r kv = recSet r kv.1 kv.2)
    (decls : List (String × String)) (init : Rec) (k : String)
    (hinit : recGet init k = none) :
    (∀ r kv, kv ∈ decls → kv.1 = k → f r kv = r) →
    recGet (decls.foldl f init) k = none := by
  induction decls generalizing init with
  | nil => intro _; simpa using hinit
  | cons hd tl ih =>
    intro hid
    rw [List.foldl_cons]
    by_cases hk : hd.1 = k
    · rw [hid init hd (List.mem_cons_self _ _) hk]
      exact ih _ hinit (fun r kv hm => hid r kv (List.mem_cons_of_mem _ hm))
    · rcases hf init hd with he | he
      · rw [he]
        exact ih _ hinit (fun r kv hm => hid r kv (List.mem_cons_of_mem _ hm))
      · rw [he]
        have hnone : recGet (recSet init hd.1 hd.2) k = none := by
          rw [recGet_recSet_ne _ _ _ _ hk, hinit]
        exact ih _ hnone (fun r kv hm => hid r kv (List.mem_cons_of_mem _ hm))

theorem parseCss_theme_eq (css name : String) :
    (parseCssToThemeRegistryItem css name).cssVars.theme =
      (inlineDeclsOf css).foldl
        (fun acc kv => if isThemeLevelKey kv.1 then recSet acc kv.1 kv.2 else acc)
        ((rootDeclsOf css).foldl
          (fun acc kv => if isThemeLevelKey kv.1 then recSet acc kv.1 kv.2 else acc) []) := rfl

theorem parseCss_light_eq (css name : String) :
    (parseCssToThemeRegistryItem css name).cssVars.light =
      (rootDeclsOf css).foldl
        (fun acc kv => if isThemeLevelKey kv.1 then acc else recSet acc kv.1 kv.2) [] := rfl

theorem parseCss_dark_eq (css name : String) :
    (parseCssToThemeRegistryItem css name).cssVars.dark =
      (darkDeclsOf css).foldl
        (fun acc kv => if isThemeLevelKey kv.1 then acc else recSet acc kv.1 kv.2) [] := rfl

theorem classTheme_step (r : Rec) (kv : String × String) :
    (if isThemeLevelKey kv.1 then recSet r kv.1 kv.2 else r) = r ∨
    (if isThemeLevelKey kv.1 then recSet r kv.1 kv.2 else r) = recSet r kv.1 kv.2 := by
  by_cases h : isThemeLevelKey kv.1 <;> simp [h]

theorem classMode_step (r : Rec) (kv : String × String) :
    (if isThemeLevelKey kv.1 then r else recSet r kv.1 kv.2) = r ∨
    (if isThemeLevelKey kv.1 then r else recSet r kv.1 kv.2) = recSet r kv.1 kv.2 := by
  by_cases h : isThemeLevelKey kv.1 <;> simp [h]

/-- The round-trip CSS text of the spec's parse test: a `:root` block
defining `background` and `radius`, concatenated with a `.dark` block
redefining `background`. -/
def cssRoundTrip : String :=
  ":root \x7b --background: #fff; --radius: 4px; \x7d.dark \x7b --background: #000; \x7d"

/-- C4: parsing the round-trip CSS text puts `radius` in theme scope with
value `4px`, `background` in light scope with `#fff` and in dark scope
with `#000`, and no `background` in theme scope; in general every `:root`
declaration with a theme-level-prefixed key lands in theme scope and
every other `:root` declaration lands in light scope. -/
theorem parseCss_root_classification :
    (recGet (parseCssToThemeRegistryItem cssRoundTrip "custom-css-theme").cssVars.theme
        "radius" = some "4px" ∧
      recGet (parseCssToThemeRegistryItem cssRoundTrip "custom-css-theme").cssVars.light
        "background" = some "#fff" ∧
      recGet (parseCssToThemeRegistryItem cssRoundTrip "custom-css-theme").cssVars.dark
        "background" = some "#000" ∧
      recGet (parseCssToThemeRegistryItem cssRoundTrip "custom-css-theme").cssVars.theme
        "background" = none) ∧
    ∀ css name k v : String, (k, v) ∈ rootDeclsOf css →
      (isThemeLevelKey k = true →
        ∃ w, recGet (parseCssToThemeRegistryItem css name).cssVars.theme k = some w) ∧
      (isThemeLevelKey k = false →
        ∃ w, recGet (parseCssToThemeRegistryItem css name).cssVars.light k = some w) := by
  constructor
  · exact ⟨by decide, by decide, by decide, by decide⟩
  · intro css name k v hmem
    constructor
    · intro hth
      rw [parseCss_theme_eq]
      exact exists_recGet_foldl_pres _ classTheme_step _ _ _
        (exists_recGet_foldl_set _ classTheme_step _ _ _ _ (fun r => by simp [hth]) hmem)
    · intro hth
      rw [parseCss_light_eq]
      exact exists_recGet_foldl_set _ classMode_step _ _ _ _ (fun r => by simp [hth]) hmem

/-- C4 witness: the general `:root` classification at the concrete
round-trip text and declaration `--radius: 4px`. -/
theorem parseCss_root_classification_witness :
    ∃ w, recGet (parseCssToThemeRegistryItem cssRoundTrip "custom-css-theme").cssVars.theme
      "radius" = some w :=
  (parseCss_root_classification.2 cssRoundTrip "custom-css-theme" "radius" "4px"
    (by decide)).1 (by decide)

/-- A CSS text whose `.dark` block declares a theme-level-prefixed key. -/
def darkOnlyCss : String :=
  ".dark \x7b --radius: 8px; \x7d"

/-- C5 counterexample: the `.dark` block of `darkOnlyCss` declares
`--radius: 8px`, yet the parsed dark scope has no `radius` entry — the
parser drops theme-level-prefixed `.dark` declarations instead of
placing them in dark scope. -/
theorem parseCss_dark_theme_prefix_cex :
    ("radius", "8px") ∈ darkDeclsOf darkOnlyCss ∧
    recGet (parseCssToThemeRegistryItem darkOnlyCss "custom-css-theme").cssVars.dark
      "radius" = none :=
  ⟨by decide, by decide⟩

/-- C5 (amended): a `.dark` declaration is placed in dark scope exactly
when its key has no theme-level prefix; theme-level-prefixed `.dark`
declarations are dropped entirely (dark scope has no entry for their
key), and `.dark` declarations are never routed to theme scope — a key
declared in no `:root` and no `@theme inline` declaration has no theme
entry even when the `.dark` block declares it. -/
theorem parseCss_dark_classification (css name k v : String)
    (hmem : (k, v) ∈ darkDeclsOf css) :
    (isThemeLevelKey k = false →
      ∃ w, recGet (parseCssToThemeRegistryItem css name).cssVars.dark k = some w) ∧
    (isThemeLevelKey k = true →
      recGet (parseCssToThemeRegistryItem css name).cssVars.dark k = none) ∧
    ((∀ w, (k, w) ∉ rootDeclsOf css) → (∀ w, (k, w) ∉ inlineDeclsOf css) →
      recGet (parseCssToThemeRegistryItem css name).cssVars.theme k = none) := by
  refine ⟨?_, ?_, ?_⟩
  · intro hth
    rw [parseCss_dark_eq]
    exact exists_recGet_foldl_set _ classMode_step _ _ _ _ (fun r => by simp [hth]) hmem
  · intro hth
    rw [parseCss_dark_eq]
    refine recGet_foldl_none _ classMode_step _ _ _ rfl ?_
    intro r kv _ hkk
    simp [hkk, hth]
  · intro hroot hinline
    rw [parseCss_theme_eq]
    refine recGet_foldl_none _ classTheme_step _ _ _ ?_ ?_
    · refine recGet_foldl_none _ classTheme_step _ _ _ rfl ?_
      intro r kv hm hkk
      exact absurd (show (k, kv.2) ∈ rootDeclsOf css by
        have hkv : kv = (k, kv.2) := by rw [← hkk]
        exact hkv ▸ hm) (hroot kv.2)
    · intro r kv hm hkk
      exact absurd (show (k, kv.2) ∈ inlineDeclsOf css by
        have hkv : kv = (k, kv.2) := by rw [← hkk]
        exact hkv ▸ hm) (hinline kv.2)

/-- C5 witness: the amended classification at the round-trip text's
`.dark` declaration `--background: #000`. -/
theorem parseCss_dark_classification_witness :
    ∃ w, recGet (parseCssToThemeRegistryItem cssRoundTrip "custom-css-theme").cssVars.dark
      "background" = some w :=
  (parseCss_dark_classification cssRoundTrip "custom-css-theme" "background" "#000"
    (by decide)).1 (by decide)

/-! ## Supporting lemmas: trimming -/

theorem jsTrimL_eq_rdropWhile (l : List Char) :
    jsTrimL l = List.rdropWhile jsWs (l.dropWhile jsWs) := rfl

theorem jsTrimL_idem (l : List Char) : jsTrimL (jsTrimL l) = jsTrimL l := by
  have hx : List.dropWhile jsWs (List.dropWhile jsWs l) = List.dropWhile jsWs l :=
    List.dropWhile_idempotent _ _
  have hhead : List.dropWhile jsWs (List.rdropWhile jsWs (List.dropWhile jsWs l)) =
      List.rdropWhile jsWs (List.dropWhile jsWs l) := by
    rw [List.dropWhile_eq_self_iff]
    intro hl
    have hpre := List.rdropWhile_prefix jsWs (List.dropWhile jsWs l)
    have hlen : 0 < (List.dropWhile jsWs l).length :=
      lt_of_lt_of_le hl (List.IsPrefix.length_le hpre)
    have hget := @List.IsPrefix.getElem Char _ _ hpre 0 hl
    simp only [List.get_eq_getElem]
    rw [hget]
    have := List.dropWhile_eq_self_iff.mp hx hlen
    simpa using this
  calc jsTrimL (jsTrimL l)
      = List.rdropWhile jsWs
          (List.dropWhile jsWs (List.rdropWhile jsWs (List.dropWhile jsWs l))) := rfl
    _ = List.rdropWhile jsWs (List.rdropWhile jsWs (List.dropWhile jsWs l)) := by rw [hhead]
    _ = List.rdropWhile jsWs (List.dropWhile jsWs l) := List.rdropWhile_idempotent _ _
    _ = jsTrimL l := rfl

theorem jsTrim_idem (s : String) : jsTrim (jsTrim s) = jsTrim s := by
  show (⟨jsTrimL (String.toList ⟨jsTrimL s.toList⟩)⟩ : String) = ⟨jsTrimL s.toList⟩
  rw [show String.toList ⟨jsTrimL s.toList⟩ = jsTrimL s.toList from rfl, jsTrimL_idem]

theorem jsTrim_all_ws (s : String) (h : ∀ c ∈ s.toList, jsWs c = true) :
    (jsTrim s).isEmpty = true := by
  have h1 : List.dropWhile jsWs s.toList = [] := List.dropWhile_eq_nil_iff.mpr h
  have h2 : jsTrimL s.toList = [] := by
    rw [jsTrimL_eq_rdropWhile, h1]
    rfl
  show (⟨jsTrimL s.toList⟩ : String).isEmpty = true
  rw [h2]
  rfl

/-- C6: `validateUrl` rejects every whitespace-only (in particular empty)
string, every string whose percent-decoding fails, and every string that
parses as a URL whose protocol is neither `http:` nor `https:`, each with
its own distinct message; concretely, `"not a url"` fails with the
format message, `"ftp://x.com/a.json"` with the protocol message, and
`"https://x.com/a.json"` is valid. -/
theorem validateUrl_spec :
    (∀ s : String, (∀ c ∈ s.toList, jsWs c = true) →
      validateUrl s = { valid := false, error := some "URL cannot be empty" }) ∧
    (∀ s : String, (jsTrim s).isEmpty = false → decodeOk (jsTrim s).toList = false →
      validateUrl s = { valid := false, error := some "Invalid URL: contains malformed characters. Please check the URL and try again." }) ∧
    (∀ (s : String) (u : UrlParts), (jsTrim s).isEmpty = false →
      decodeOk (jsTrim s).toList = true → parseUrl (jsTrim s) = some u →
      u.protocol ≠ "http:" → u.protocol ≠ "https:" →
      validateUrl s = { valid := false, error := some "URL must use http or https protocol" }) ∧
    (("URL cannot be empty" : String) ≠
        "Invalid URL: contains malformed characters. Please check the URL and try again." ∧
      ("URL cannot be empty" : String) ≠ "URL must use http or https protocol" ∧
      ("Invalid URL: contains malformed characters. Please check the URL and try again." :
        String) ≠ "URL must use http or https protocol") ∧
    validateUrl "not a url" = { valid := false, error := some "Invalid URL format. Please enter a valid URL (e.g., https://example.com/theme.json)" } ∧
    validateUrl "ftp://x.com/a.json" = { valid := false, error := some "URL must use http or https protocol" } ∧
    validateUrl "https://x.com/a.json" = { valid := true, error := none } := by
  refine ⟨?_, ?_, ?_, ⟨by decide, by decide, by decide⟩, by decide, by decide, by decide⟩
  · intro s h
    simp [validateUrl, jsTrim_all_ws s h]
  · intro s h1 h2
    have h2d : decodeOk (jsTrim s).data = false := h2
    simp [validateUrl, h1, h2d]
  · intro s u h1 h2 h3 h4 h5
    have h2d : decodeOk (jsTrim s).data = true := h2
    simp [validateUrl, h1, h2d, h3, h4, h5]

/-- C6 witness: the protocol conjunct of `validateUrl_spec` applied at
the concrete input `"ftp://x.com/a.json"`. -/
theorem validateUrl_spec_witness :
    validateUrl "ftp://x.com/a.json" =
      { valid := false, error := some "URL must use http or https protocol" } :=
  validateUrl_spec.2.2.1 "ftp://x.com/a.json"
    { scheme := "ftp", host := "x.com", pathname := "/a.json", query := none }
    (by decide) (by decide) (by decide) (by decide) (by decide)

/-- C7 counterexample: `"foo:--bar"` parses as a valid absolute URL (the
`URL` constructor accepts any non-special scheme with an opaque path),
yet `isCssCode` classifies it as CSS, because `validateUrl` rejects its
non-http(s) protocol and the string contains `--`. -/
theorem isCssCode_url_cex :
    (parseUrl (jsTrim "foo:--bar")).isSome = true ∧ isCssCode "foo:--bar" = true :=
  ⟨by decide, by decide⟩

/-- C7 (amended): the CSS-vs-URL heuristic classifies a string as a URL
(returns false) exactly when `validateUrl` accepts its trimmed form — a
valid absolute URL with an http or https protocol, not merely any valid
absolute URL — and every accepted string does parse as an absolute URL;
otherwise it is CSS exactly when the trimmed string contains `:root`,
`.dark`, `@theme`, `--`, or braces together with a colon. -/
theorem isCssCode_spec (s : String) :
    ((validateUrl (jsTrim s)).valid = true →
      isCssCode s = false ∧ (parseUrl (jsTrim s)).isSome = true) ∧
    ((validateUrl (jsTrim s)).valid = false →
      isCssCode s = (jsIncludes (jsTrim s) ":root" || jsIncludes (jsTrim s) ".dark" ||
        jsIncludes (jsTrim s) "@theme" || jsIncludes (jsTrim s) "--" ||
        (jsIncludes (jsTrim s) "\x7b" && jsIncludes (jsTrim s) "\x7d" &&
          jsIncludes (jsTrim s) ":"))) := by
  constructor
  · intro h
    refine ⟨by simp [isCssCode, h], ?_⟩
    by_cases he : (jsTrim (jsTrim s)).isEmpty
    · simp [validateUrl, he] at h
    · by_cases hd : decodeOk (jsTrim (jsTrim s)).data
      · rcases hp : parseUrl (jsTrim (jsTrim s)) with _ | u
        · simp [validateUrl, he, hd, hp] at h
        · rw [jsTrim_idem] at hp
          simp [hp]
      · simp [validateUrl, he, hd] at h
  · intro h
    simp [isCssCode, h]

/-- C7 witness: the heuristic's indicator equation at the concrete
rejected input `"hello world"`. -/
theorem isCssCode_spec_witness :
    isCssCode "hello world" = (jsIncludes (jsTrim "hello world") ":root" ||
      jsIncludes (jsTrim "hello world") ".dark" ||
      jsIncludes (jsTrim "hello world") "@theme" || jsIncludes (jsTrim "hello world") "--" ||
      (jsIncludes (jsTrim "hello world") "\x7b" && jsIncludes (jsTrim "hello world") "\x7d" &&
        jsIncludes (jsTrim "hello world") ":")) :=
  (isCssCode_spec "hello world").2 (by decide)

/-- A network that always fails (non-ok response, transport failure, or
parse failure — `fetchTheme` converts each to `null`). -/
def failNet : RegistryNet := fun _ => none

/-- C8 counterexample: when the network request fails, the failed result
is not cached, so two consecutive `fetchTheme` calls for the same name on
a fresh `ThemeRegistry` perform two network requests, not exactly one. -/
theorem fetchTheme_failure_two_requests_cex :
    (fetchTheme RegistryState.init failNet "a").requests +
      (fetchTheme (fetchTheme RegistryState.init failNet "a").state failNet "a").requests
      = 2 := by
  rfl

/-- C8 (amended): provided the network request for a name succeeds, two
consecutive `fetchTheme` calls on a fresh registry perform exactly one
network request between them and both return the fetched theme (the
second served from the cache); after `clearCache`, a further call
performs a new network request and returns the theme again. -/
theorem fetchTheme_cache_reuse (net : RegistryNet) (nm : String) (t : TweakcnTheme)
    (h : net nm = some t) :
    (fetchTheme RegistryState.init net nm).requests = 1 ∧
    (fetchTheme RegistryState.init net nm).value = some t ∧
    (fetchTheme (fetchTheme RegistryState.init net nm).state net nm).requests = 0 ∧
    (fetchTheme (fetchTheme RegistryState.init net nm).state net nm).value = some t ∧
    (fetchTheme
      (clearCache (fetchTheme (fetchTheme RegistryState.init net nm).state net nm).state)
      net nm).requests = 1 ∧
    (fetchTheme
      (clearCache (fetchTheme (fetchTheme RegistryState.init net nm).state net nm).state)
      net nm).value = some t := by
  have h1 : fetchTheme RegistryState.init net nm =
      { value := some t, state := { cache := [(nm, t)] }, requests := 1 } := by
    simp [fetchTheme, RegistryState.init, alistGet, h, alistSet]
  have h2 : fetchTheme { cache := [(nm, t)] } net nm =
      { value := some t, state := { cache := [(nm, t)] }, requests := 0 } := by
    simp [fetchTheme, alistGet]
  have h3 : fetchTheme (clearCache { cache := [(nm, t)] }) net nm =
      { value := some t, state := { cache := [(nm, t)] }, requests := 1 } := by
    simp [fetchTheme, clearCache, alistGet, h, alistSet]
  rw [h1, h2, h3]
  exact ⟨rfl, rfl, rfl, rfl, rfl, rfl⟩

/-- A concrete wire theme for the registry witness. -/
def plainTheme : TweakcnTheme :=
  { name := "plain", type := "theme"
    cssVars := { theme := [], light := [], dark := [] }
    css := none }

/-- A network that always answers with `plainTheme`. -/
def plainNet : RegistryNet := fun _ => some plainTheme

/-- C8 witness: the cache-reuse theorem at the concrete always-successful
network and name `"a"`. -/
theorem fetchTheme_cache_reuse_witness :
    (fetchTheme RegistryState.init plainNet "a").requests = 1 ∧
    (fetchTheme RegistryState.init plainNet "a").value = some plainTheme ∧
    (fetchTheme (fetchTheme RegistryState.init plainNet "a").state plainNet "a").requests = 0 ∧
    (fetchTheme (fetchTheme RegistryState.init plainNet "a").state plainNet "a").value
      = some plainTheme ∧
    (fetchTheme
      (clearCache (fetchTheme (fetchTheme RegistryState.init plainNet "a").state plainNet
        "a").state) plainNet "a").requests = 1 ∧
    (fetchTheme
      (clearCache (fetchTheme (fetchTheme RegistryState.init plainNet "a").state plainNet
        "a").state) plainNet "a").value = some plainTheme :=
  fetchTheme_cache_reuse plainNet "a" plainTheme rfl

/-- C2: while a theme application is in flight (`isApplyingRef` set), any
further `applyTheme` call is a complete no-op — same controller state,
same DOM, same storage, zero network fetches; and every suspension point
of a guarded run has the flag set, so a second call interleaved anywhere
inside an in-flight apply is such a no-op.  At most one apply is ever in
flight, and the final state is the first call's resolution alone. -/
theorem applyTheme_at_most_one_in_flight :
    (∀ (st : CtrlState) (d : Dom) (sto : Option PersistedTheme) (persist : Bool)
      (u : String) (om : Option Mode) (net : NetOutcome) (now : Nat),
      st.isApplying = true →
      applyThemeRun st d sto persist u om net now =
        { state := st, dom := d, storage := sto, fetches := 0 }) ∧
    (∀ (st : CtrlState) (u : String) (net : NetOutcome), st.isApplying = false →
      ∀ m ∈ applyThemeMidStates st u net, m.isApplying = true ∧
        ∀ (d' : Dom) (sto' : Option PersistedTheme) (persist' : Bool) (u' : String)
          (om' : Option Mode) (net' : NetOutcome) (now' : Nat),
          applyThemeRun m d' sto' persist' u' om' net' now' =
            { state := m, dom := d', storage := sto', fetches := 0 }) := by
  have hguard : ∀ (st : CtrlState) (d : Dom) (sto : Option PersistedTheme) (persist : Bool)
      (u : String) (om : Option Mode) (net : NetOutcome) (now : Nat),
      st.isApplying = true →
      applyThemeRun st d sto persist u om net now =
        { state := st, dom := d, storage := sto, fetches := 0 } := by
    intro st d sto persist u om net now h
    simp [applyThemeRun, h]
  refine ⟨hguard, ?_⟩
  intro st u net _h m hm
  have hm' : m.isApplying = true := by
    simp only [applyThemeMidStates] at hm
    by_cases hc : isCssCode u
    · simp only [hc, if_true, List.mem_singleton] at hm
      rw [hm]
    · simp only [hc, Bool.false_eq_true, if_false] at hm
      rcases hf : fetchThemeFromUrlM u net with msg | item <;> rw [hf] at hm
      · simp only [List.mem_singleton] at hm
        rw [hm]
      · simp only [List.mem_cons, List.mem_singleton, List.not_mem_nil, or_false] at hm
        rcases hm with hm | hm <;> rw [hm]
  exact ⟨hm', fun d' sto' persist' u' om' net' now' =>
    hguard m d' sto' persist' u' om' net' now' hm'⟩

/-- A controller state that is currently applying a theme. -/
def ctrlBusy : CtrlState :=
  { themes := []
    currentTheme := none
    isLoading := true
    error := none
    mode := Mode.light
    currentRegistryItem := none
    isApplying := true }

/-- An idle controller state. -/
def ctrlIdle : CtrlState :=
  { themes := []
    currentTheme := none
    isLoading := false
    error := none
    mode := Mode.light
    currentRegistryItem := none
    isApplying := false }

/-- C2 witness: the guard conjunct at a concrete in-flight controller
state: the call leaves everything unchanged and performs no fetch. -/
theorem applyTheme_at_most_one_in_flight_witness :
    applyThemeRun ctrlBusy domEmpty none true "https://x.com/a.json" none
        NetOutcome.transport 0 =
      { state := ctrlBusy, dom := domEmpty, storage := none, fetches := 0 } :=
  applyTheme_at_most_one_in_flight.1 ctrlBusy
    domEmpty none true "https://x.com/a.json" none NetOutcome.transport 0 rfl

/-- C3: when the resolution of a URL input fails — validation failure,
HTTP error status, transport failure, or JSON parse failure — the run
leaves the DOM, the storage, the theme list, the current selection and
the current registry item exactly as they were, sets the failure message
as the `error` field, and ends with both flags cleared. -/
theorem applyTheme_failure_leaves_dom_intact
    (st : CtrlState) (d : Dom) (sto : Option PersistedTheme) (persist : Bool)
    (u : String) (om : Option Mode) (net : NetOutcome) (now : Nat) (msg : String)
    (hidle : st.isApplying = false)
    (hcss : isCssCode u = false)
    (hfail : fetchThemeFromUrlM u net = .error msg) :
    (applyThemeRun st d sto persist u om net now).dom = d ∧
    (applyThemeRun st d sto persist u om net now).storage = sto ∧
    (applyThemeRun st d sto persist u om net now).state =
      { st with error := some msg, isLoading := false, isApplying := false } := by
  simp only [applyThemeRun, hidle, hcss, hfail, Bool.false_eq_true, if_false]
  exact ⟨trivial, trivial, trivial⟩

/-- C3 witness: the failure theorem at a concrete idle state, URL and
transport failure. -/
theorem applyTheme_failure_leaves_dom_intact_witness :
    (applyThemeRun ctrlIdle domEmpty none true "https://x.com/a.json" none
      NetOutcome.transport 0).dom = domEmpty :=
  (applyTheme_failure_leaves_dom_intact ctrlIdle
    domEmpty none true "https://x.com/a.json" none NetOutcome.transport 0
    "Network error: Unable to fetch theme. Please check your connection and the URL."
    rfl (by decide) (by rfl)).1

/-- C10: every `applyTheme` invocation that passes the in-flight guard
releases it on termination: whether the resolution succeeds or fails, the
`finally` block leaves `isApplying` and `isLoading` false, so a later
call is never blocked by a completed one. -/
theorem applyTheme_releases_guard
    (st : CtrlState) (d : Dom) (sto : Option PersistedTheme) (persist : Bool)
    (u : String) (om : Option Mode) (net : NetOutcome) (now : Nat)
    (h : st.isApplying = false) :
    (applyThemeRun st d sto persist u om net now).state.isApplying = false ∧
    (applyThemeRun st d sto persist u om net now).state.isLoading = false := by
  simp only [applyThemeRun, h, Bool.false_eq_true, if_false]
  by_cases hc : isCssCode u
  · simp [hc]
  · rcases hf : fetchThemeFromUrlM u net with msg | item <;> simp [hc, hf]

/-- C10 witness: the guard-release theorem after a concrete failing run. -/
theorem applyTheme_releases_guard_witness :
    (applyThemeRun ctrlIdle domEmpty none true "not a url" none
      NetOutcome.transport 0).state.isApplying = false :=
  (applyTheme_releases_guard ctrlIdle
    domEmpty none true "not a url" none NetOutcome.transport 0 rfl).1

/-! ## Supporting lemmas: idempotence of the applier -/

theorem hasLinkHref_append (l m : List (String × Bool)) (u : String)
    (h : hasLinkHref l u = true) : hasLinkHref (l ++ m) u = true := by
  simp only [hasLinkHref, List.any_append, Bool.or_eq_true]
  exact Or.inl h

theorem hasLinkHref_loadFontStep (l : List (String × Bool)) (u u2 : String)
    (h : hasLinkHref l u = true) : hasLinkHref (loadFontStep l u2) u = true := by
  unfold loadFontStep
  by_cases hx : hasLinkHref l u2
  · simpa [hx]
  · simp only [hx, Bool.false_eq_true, if_false]
    exact hasLinkHref_append _ _ _ h

theorem hasLinkHref_loadFontStep_self (l : List (String × Bool)) (u : String) :
    hasLinkHref (loadFontStep l u) u = true := by
  unfold loadFontStep
  by_cases hx : hasLinkHref l u
  · simp [hx]
  · rw [if_neg hx]
    simp [hasLinkHref, List.any_append]

theorem hasLinkHref_loadFontsList (names : List String) (l : List (String × Bool))
    (u : String) (h : hasLinkHref l u = true) :
    hasLinkHref (loadFontsList names l) u = true := by
  induction names generalizing l with
  | nil => simpa [loadFontsList]
  | cons hd tl ih =>
    show hasLinkHref (loadFontsList tl _) u = true
    rcases hg : getGoogleFontsUrl hd with _ | u2
    · simp only [loadFontsList, List.foldl_cons, hg]
      exact ih l h
    · simp only [loadFontsList, List.foldl_cons, hg]
      exact ih _ (hasLinkHref_loadFontStep _ _ _ h)

theorem loadFontsList_covers (names : List String) (l : List (String × Bool))
    (n : String) (u : String) (hn : n ∈ names) (hu : getGoogleFontsUrl n = some u) :
    hasLinkHref (loadFontsList names l) u = true := by
  induction names generalizing l with
  | nil => simp at hn
  | cons hd tl ih =>
    rcases List.mem_cons.mp hn with he | hm
    · subst he
      simp only [loadFontsList, List.foldl_cons, hu]
      exact hasLinkHref_loadFontsList tl _ u (hasLinkHref_loadFontStep_self l u)
    · rcases hg : getGoogleFontsUrl hd with _ | u2 <;>
        simp only [loadFontsList, List.foldl_cons, hg] <;> exact ih _ hm

theorem loadFontsList_noop (names : List String) (l : List (String × Bool))
    (hall : ∀ n ∈ names, ∀ u, getGoogleFontsUrl n = some u → hasLinkHref l u = true) :
    loadFontsList names l = l := by
  induction names with
  | nil => rfl
  | cons hd tl ih =>
    rcases hg : getGoogleFontsUrl hd with _ | u2
    · simp only [loadFontsList, List.foldl_cons, hg]
      exact ih (fun n hn u hu => hall n (List.mem_cons_of_mem _ hn) u hu)
    · simp only [loadFontsList, List.foldl_cons, hg]
      have hstep : loadFontStep l u2 = l := by
        unfold loadFontStep
        simp [hall hd (List.mem_cons_self _ _) u2 hg]
      rw [hstep]
      exact ih (fun n hn u hu => hall n (List.mem_cons_of_mem _ hn) u hu)

theorem loadFontsList_idem (names : List String) (l : List (String × Bool)) :
    loadFontsList names (loadFontsList names l) = loadFontsList names l :=
  loadFontsList_noop names _ (fun n hn u hu => loadFontsList_covers names l n u hn hu)

theorem loadFonts_idem (fv : String) (l : List (String × Bool)) :
    loadFonts fv (loadFonts fv l) = loadFonts fv l :=
  loadFontsList_idem _ _

theorem filter_not_snd_idem (l : List (String × Bool)) :
    (l.filter (fun x => !x.2)).filter (fun x => !x.2) = l.filter (fun x => !x.2) := by
  induction l with
  | nil => rfl
  | cons hd tl ih =>
    by_cases h : hd.2 <;> simp [List.filter_cons, h, ih]

theorem props_pipeline (th mv p : Rec) :
    applyModeVars mv (applySets th p) =
      applySets (th ++ mv.filter (fun kv => !isThemeLevelKey kv.1)) p := by
  rw [applyModeVars_eq_filter, applySets_append]

theorem applyThemeFromRegistry_fontVarStyles (item : ThemeRegistryItem) (mode : Mode)
    (d : Dom) :
    (applyThemeFromRegistry item mode d).fontVarStyles =
      (match computeFontSans item.cssVars.theme with
        | some fv => d.fontVarStyles.tail ++ [fontStyleContent fv]
        | none => d.fontVarStyles.tail) := by
  unfold applyThemeFromRegistry
  rcases computeFontSans item.cssVars.theme with _ | fv <;>
    rcases layerBaseOf item with _ | base <;> rfl

theorem applyThemeFromRegistry_fontLinks (item : ThemeRegistryItem) (mode : Mode)
    (d : Dom) :
    (applyThemeFromRegistry item mode d).fontLinks =
      (match computeFontSans item.cssVars.theme with
        | some fv => loadFonts fv d.fontLinks
        | none => d.fontLinks.filter (fun l => !l.2)) := by
  unfold applyThemeFromRegistry
  rcases computeFontSans item.cssVars.theme with _ | fv <;>
    rcases layerBaseOf item with _ | base <;> rfl

theorem applyThemeFromRegistry_layerStyles (item : ThemeRegistryItem) (mode : Mode)
    (d : Dom) :
    (applyThemeFromRegistry item mode d).layerStyles =
      (match layerBaseOf item with
        | some base => [layerStyleContent base]
        | none => d.layerStyles) := by
  unfold applyThemeFromRegistry
  rcases computeFontSans item.cssVars.theme with _ | fv <;>
    rcases layerBaseOf item with _ | base <;> rfl

theorem applyThemeFromRegistry_rootFontInline (item : ThemeRegistryItem) (mode : Mode)
    (d : Dom) :
    (applyThemeFromRegistry item mode d).rootFontInline =
      (match computeFontSans item.cssVars.theme with
        | some _ => d.rootFontInline
        | none => none) := by
  unfold applyThemeFromRegistry
  rcases computeFontSans item.cssVars.theme with _ | fv <;>
    rcases layerBaseOf item with _ | base <;> rfl

theorem applyThemeFromRegistry_bodyFontInline (item : ThemeRegistryItem) (mode : Mode)
    (d : Dom) :
    (applyThemeFromRegistry item mode d).bodyFontInline =
      (match computeFontSans item.cssVars.theme with
        | some _ => d.bodyFontInline
        | none => none) := by
  unfold applyThemeFromRegistry
  rcases computeFontSans item.cssVars.theme with _ | fv <;>
    rcases layerBaseOf item with _ | base <;> rfl

theorem applyThemeFromRegistry_darkClass (item : ThemeRegistryItem) (mode : Mode)
    (d : Dom) :
    (applyThemeFromRegistry item mode d).darkClass = decide (mode = Mode.dark) := by
  unfold applyThemeFromRegistry
  rcases computeFontSans item.cssVars.theme with _ | fv <;>
    rcases layerBaseOf item with _ | base <;> rfl

theorem tail_eq_nil_of_length_le_one {α : Type} (l : List α) (h : l.length ≤ 1) :
    l.tail = [] := by
  rcases l with _ | ⟨a, _ | ⟨b, t⟩⟩
  · rfl
  · rfl
  · simp at h

theorem applyThemeFromRegistry_fontVarStyles_le_one (item : ThemeRegistryItem)
    (mode : Mode) (d : Dom) (h : d.fontVarStyles.length ≤ 1) :
    (applyThemeFromRegistry item mode d).fontVarStyles.length ≤ 1 := by
  rw [applyThemeFromRegistry_fontVarStyles, tail_eq_nil_of_length_le_one _ h]
  rcases computeFontSans item.cssVars.theme with _ | fv <;> simp

theorem applyThemeFromRegistry_idem_once (item : ThemeRegistryItem) (mode : Mode)
    (d : Dom) (hfv : d.fontVarStyles.length ≤ 1) :
    applyThemeFromRegistry item mode (applyThemeFromRegistry item mode d) =
      applyThemeFromRegistry item mode d := by
  have htail : d.fontVarStyles.tail = [] := tail_eq_nil_of_length_le_one _ hfv
  ext1
  · simp only [applyThemeFromRegistry_props, props_pipeline]
    exact applySets_idem _ _
  · simp only [applyThemeFromRegistry_fontVarStyles, htail]
    rcases computeFontSans item.cssVars.theme with _ | fv <;> simp
  · simp only [applyThemeFromRegistry_fontLinks]
    rcases hcf : computeFontSans item.cssVars.theme with _ | fv <;> simp only [hcf]
    · exact filter_not_snd_idem _
    · exact loadFonts_idem _ _
  · simp only [applyThemeFromRegistry_layerStyles]
    rcases hlb : layerBaseOf item with _ | base <;> simp [hlb]
  · simp only [applyThemeFromRegistry_rootFontInline]
    rcases hcf : computeFontSans item.cssVars.theme with _ | fv <;> simp [hcf]
  · simp only [applyThemeFromRegistry_bodyFontInline]
    rcases hcf : computeFontSans item.cssVars.theme with _ | fv <;> simp [hcf]
  · simp only [applyThemeFromRegistry_darkClass]

/-- A registry item whose theme scope sets `font-sans`, so the applier
inserts a font-override stylesheet. -/
def itemFont : ThemeRegistryItem :=
  { name := "f", type := "theme"
    cssVars := { theme := [("font-sans", "Inter")], light := [], dark := [] }
    css := none }

/-- A DOM state already holding two managed font-override stylesheets. -/
def domTwoFontStyles : Dom :=
  { props := [], fontVarStyles := ["a", "b"], fontLinks := [], layerStyles := []
    rootFontInline := none, bodyFontInline := none, darkClass := false }

/-- C9 counterexample: on a document already holding two managed
font-override stylesheets, applying the same (item, mode) pair twice is
not the same as applying it once: the applier removes only the first
matching style element per run, so one stale stylesheet survives the
first application and a duplicate of the fresh override appears after
the second. -/
theorem applyThemeFromRegistry_stale_styles_cex :
    (applyN itemFont Mode.light 2 domTwoFontStyles).fontVarStyles ≠
      (applyThemeFromRegistry itemFont Mode.light domTwoFontStyles).fontVarStyles ∧
    applyN itemFont Mode.light 2 domTwoFontStyles ≠
      applyThemeFromRegistry itemFont Mode.light domTwoFontStyles := by
  refine ⟨by decide, fun h => ?_⟩
  exact absurd (congrArg Dom.fontVarStyles h) (by decide)

/-- C9 (amended): provided the document starts with at most one managed
font-override stylesheet — the invariant the applier itself maintains,
since every run removes one such stylesheet and inserts at most one —
applying the same (item, mode) pair any number N of at least one times
yields exactly the DOM state of a single application: identical root
custom properties, a single font-override stylesheet and a single
generated stylesheet with identical contents, identical font links with
no duplicates accumulating, and the same `dark` class. -/
theorem applyThemeFromRegistry_idempotent (item : ThemeRegistryItem) (mode : Mode)
    (d : Dom) (n : Nat) (h : 1 ≤ n) (hfv : d.fontVarStyles.length ≤ 1) :
    applyN item mode n d = applyThemeFromRegistry item mode d := by
  induction n with
  | zero => exact absurd h (by decide)
  | succ m ih =>
    rcases Nat.eq_zero_or_pos m with h0 | hpos
    · subst h0
      rfl
    · show applyThemeFromRegistry item mode (applyN item mode m d) = _
      rw [ih hpos, applyThemeFromRegistry_idem_once item mode d hfv]

/-- C9 witness: two applications of a concrete (item, mode) pair equal
one. -/
theorem applyThemeFromRegistry_idempotent_witness :
    applyN itemRadius Mode.dark 2 domEmpty =
      applyThemeFromRegistry itemRadius Mode.dark domEmpty :=
  applyThemeFromRegistry_idempotent itemRadius Mode.dark domEmpty 2 (by decide) (by decide)
